import Mathlib

/-!
Shallow embedding of the reader-side sample pipeline of the rustdds DDS
participant (`src/rustdds/src/dds/with_key/simpledatareader.rs` and
`src/rustdds/src/dds/no_key/simpledatareader.rs`), together with proofs of
the specified properties.

Machine identifiers (GUID, KeyHash, RepresentationIdentifier, Timestamp) are
modelled as `Nat`; sequence numbers as `Int`.  The `BTreeMap`s of `ReadState`
are modelled as association lists with insert-replaces semantics.  Stateful
Rust code is modelled by explicit state passing: every operation that mutates
the `ReadState` returns the new state.
-/

namespace DDS

/-- Timestamp (rustdds `Timestamp`): totally ordered; `Timestamp::ZERO` is 0,
`Timestamp::now()` is passed in explicitly as a parameter `now`. -/
abbrev Timestamp := Nat

/-- GUID (writer identity), modelled as an opaque totally ordered id. -/
abbrev GUID := Nat

/-- Per-writer sequence number (rustdds `SequenceNumber`, an i64). -/
abbrev SequenceNumber := Int

/-- Fixed-width key hash (rustdds `KeyHash`). -/
abbrev KeyHash := Nat

/-- 2-byte wire tag identifying a serialization format. -/
abbrev RepresentationIdentifier := Nat

/-- Serialized byte payloads. -/
abbrev Bytes := List Nat

/-- Association-list lookup, modelling `BTreeMap::get`. -/
def mapLookup {β : Type} : List (Nat × β) → Nat → Option β
  | [], _ => none
  | (a, b) :: m, x => if x = a then some b else mapLookup m x

/-- Association-list insert, modelling `BTreeMap::insert` (replaces any
existing binding for the key). -/
def mapInsert {β : Type} (m : List (Nat × β)) (a : Nat) (b : β) : List (Nat × β) :=
  (a, b) :: m.filter (fun p => decide (p.1 ≠ a))

/-- `SerializedPayload`: payload bytes tagged with a representation id. -/
structure SerializedPayload where
  representation_identifier : RepresentationIdentifier
  value : Bytes
  deriving DecidableEq, Repr

/-- `DDSData`: the payload variants of a cache change. -/
inductive DDSData where
  | data (serialized_payload : SerializedPayload)
  | disposeByKey (key : SerializedPayload)
  | disposeByKeyHash (key_hash : KeyHash)
  deriving DecidableEq, Repr

/-- `CacheChange`: one record placed in the topic cache by the receive path. -/
structure CacheChange where
  writer_guid : GUID
  sequence_number : SequenceNumber
  data_value : DDSData
  deriving DecidableEq, Repr

/-- `Sample<D, K>`: a decoded payload or a dispose notification. -/
inductive Sample (D K : Type) where
  | value (d : D)
  | dispose (k : K)
  deriving DecidableEq, Repr

/-- Modelled from the spec: `DeserializedCacheChange<D>` (its definition lives
in `dds/with_key/datasample.rs`, which is not among the given sources).  Per
the spec it carries the arrival timestamp, the writer identity and sequence
number copied from the source change, and a `Sample` variant. -/
structure DeserializedCacheChange (D K : Type) where
  receive_instant : Timestamp
  writer_guid : GUID
  sequence_number : SequenceNumber
  sample : Sample D K
  deriving DecidableEq, Repr

/-- Modelled from the spec: constructor `DeserializedCacheChange::new`, which
copies writer identity and sequence number from the source cache change. -/
def DeserializedCacheChange.mk' {D K : Type} (timestamp : Timestamp) (cc : CacheChange)
    (sample : Sample D K) : DeserializedCacheChange D K :=
  ⟨timestamp, cc.writer_guid, cc.sequence_number, sample⟩

/-- The `Keyed` / `Key` capabilities: extracting the key of a value
(`Keyed::key`) and hashing a key (`Key::hash_key`). -/
structure KeyOps (D K : Type) where
  key : D → K
  hash_key : K → KeyHash

/-- The instance key of a sample, as computed in `update_hash_to_key_map`. -/
def Sample.instance_key {D K : Type} (ko : KeyOps D K) : Sample D K → K
  | .value d => ko.key d
  | .dispose k => k

/-- `DeserializerAdapter<D>` plus its `KeyFromBytes` capability: the set of
supported encodings, the payload decoder, and the stateless key decoder.
Decoder failures carry a display string (rust `serialization::Error`). -/
structure DeserializerAdapter (D K : Type) where
  supported_encodings : List RepresentationIdentifier
  from_bytes : Bytes → RepresentationIdentifier → Except String D
  key_from_bytes : Bytes → RepresentationIdentifier → Except String K

/-- `SeedDeserializerAdapter<D>`: like `DeserializerAdapter` but the payload
decoder takes a caller-supplied seed of type `S`. -/
structure SeedDeserializerAdapter (D K S : Type) where
  supported_encodings : List RepresentationIdentifier
  from_bytes : S → Bytes → RepresentationIdentifier → Except String D
  key_from_bytes : Bytes → RepresentationIdentifier → Except String K

/-- Modelled from the spec: QoS `Reliability` policy — either best-effort or
reliable (the latter with a max-blocking-time parameter the reader ignores). -/
inductive Reliability where
  | best_effort
  | reliable (max_blocking_time : Nat)
  deriving DecidableEq, Repr

/-- Modelled from the spec: the QoS policy snapshot; the only policy the
reader consults is `reliability`. -/
structure QosPolicies where
  reliability : Option Reliability
  deriving DecidableEq, Repr

/-- `matches!(qos.reliability(), Some(Reliability::Reliable{..}))` as computed
at the top of `try_take_one` / `try_take_one_seed`. -/
def QosPolicies.is_reliable (q : QosPolicies) : Bool :=
  match q.reliability with
  | some (.reliable _) => true
  | _ => false

/-- `ReadState<K>`: the per-reader mutable read pointers. -/
structure ReadState (K : Type) where
  latest_instant : Timestamp
  last_read_sn : List (GUID × SequenceNumber)
  hash_to_key_map : List (KeyHash × K)
  deriving DecidableEq, Repr

/-- `ReadState::new()`: zero timestamp, empty maps. -/
def ReadState.new (K : Type) : ReadState K := ⟨0, [], []⟩

/-- Modelled from the spec: the `TopicCache` consumer interface (§6 of the
spec; the cache implementation in `structure/dds_cache.rs` is not among the
given sources).  The two range queries return their matches in ascending
order; the reader consumes only the head. -/
structure TopicCache where
  get_changes_in_range_reliable :
    List (GUID × SequenceNumber) → List (Timestamp × CacheChange)
  get_changes_in_range_best_effort :
    Timestamp → Timestamp → List (Timestamp × CacheChange)

/-- `SimpleDataReader::try_take_undecoded`: select the candidate range from
the topic cache according to the reliability mode. -/
def try_take_undecoded (is_reliable : Bool) (topic_cache : TopicCache)
    (latest_instant : Timestamp) (last_read_sn : List (GUID × SequenceNumber))
    (now : Timestamp) : List (Timestamp × CacheChange) :=
  if is_reliable then
    topic_cache.get_changes_in_range_reliable last_read_sn
  else
    topic_cache.get_changes_in_range_best_effort latest_instant now

/-- `SimpleDataReader::update_hash_to_key_map`: remember the hash → key
binding of the decoded sample's instance key. -/
def update_hash_to_key_map {D K : Type} (ko : KeyOps D K)
    (hash_to_key_map : List (KeyHash × K)) (deserialized : Sample D K) :
    List (KeyHash × K) :=
  let instance_key := deserialized.instance_key ko
  mapInsert hash_to_key_map (ko.hash_key instance_key) instance_key

/-- `SimpleDataReader::deserialize_inner`: decode one cache change according
to its payload variant; on success also return the updated hash → key map
(the Rust code updates it in place through a mutable borrow). -/
def deserialize_inner {D K : Type} (ko : KeyOps D K)
    (key_from_bytes : Bytes → RepresentationIdentifier → Except String K)
    (cc : CacheChange) (hash_to_key_map : List (KeyHash × K))
    (timestamp : Timestamp)
    (supported_encodings : List RepresentationIdentifier)
    (deserialize : Bytes → RepresentationIdentifier → Except String D) :
    Except String (DeserializedCacheChange D K × List (KeyHash × K)) :=
  match cc.data_value with
  | .data serialized_payload =>
    match supported_encodings.find?
        (fun r => r == serialized_payload.representation_identifier) with
    | some recognized_rep_id =>
      match deserialize serialized_payload.value recognized_rep_id with
      | .ok payload =>
        let p := Sample.value payload
        .ok (DeserializedCacheChange.mk' timestamp cc p,
             update_hash_to_key_map ko hash_to_key_map p)
      | .error e => .error ("Failed to deserialize sample bytes: " ++ e ++ ", ")
    | none =>
      .error ("Unknown representation id " ++
        toString serialized_payload.representation_identifier ++ ".")
  | .disposeByKey serialized_key =>
    match key_from_bytes serialized_key.value
        serialized_key.representation_identifier with
    | .ok key =>
      let k := Sample.dispose key
      .ok (DeserializedCacheChange.mk' timestamp cc k,
           update_hash_to_key_map ko hash_to_key_map k)
    | .error e => .error ("Failed to deserialize key " ++ e)
  | .disposeByKeyHash key_hash =>
    match mapLookup hash_to_key_map key_hash with
    | some key =>
      .ok (DeserializedCacheChange.mk' timestamp cc (Sample.dispose key),
           hash_to_key_map)
    | none =>
      .error ("Tried to dispose with unknown key hash: " ++ toString key_hash)

/-- `SimpleDataReader::deserialize`: plain (unseeded) decoding via the
adapter's `from_bytes`. -/
def deserialize {D K : Type} (ko : KeyOps D K) (DA : DeserializerAdapter D K)
    (timestamp : Timestamp) (cc : CacheChange)
    (hash_to_key_map : List (KeyHash × K)) :
    Except String (DeserializedCacheChange D K × List (KeyHash × K)) :=
  deserialize_inner ko DA.key_from_bytes cc hash_to_key_map timestamp
    DA.supported_encodings DA.from_bytes

/-- `SimpleDataReader::deserialize_seed`: seeded decoding; the seed is
threaded into the payload decode only. -/
def deserialize_seed {D K S : Type} (ko : KeyOps D K)
    (DA : SeedDeserializerAdapter D K S) (timestamp : Timestamp)
    (cc : CacheChange) (hash_to_key_map : List (KeyHash × K)) (d : S) :
    Except String (DeserializedCacheChange D K × List (KeyHash × K)) :=
  deserialize_inner ko DA.key_from_bytes cc hash_to_key_map timestamp
    DA.supported_encodings (fun value encoding => DA.from_bytes d value encoding)

/-- The DDS error taxonomy subset produced by the take path. -/
inductive DDSError where
  | serialization_error (msg : String)
  deriving DecidableEq, Repr

/-- The immutable reader configuration consulted by the take path: the QoS
snapshot and the topic name and type identity used in error messages. -/
structure SimpleDataReader where
  qos_policy : QosPolicies
  topic_name : String
  topic_type : String

/-- `SimpleDataReader::try_take_one`: consume the next undelivered change.
The topic cache view and the current time are explicit parameters; the
`ReadState` is threaded explicitly (it sits behind a mutex in the source). -/
def try_take_one {D K : Type} (ko : KeyOps D K) (DA : DeserializerAdapter D K)
    (r : SimpleDataReader) (topic_cache : TopicCache) (now : Timestamp)
    (read_state : ReadState K) :
    Except DDSError (Option (DeserializedCacheChange D K)) × ReadState K :=
  let is_reliable := r.qos_policy.is_reliable
  let latest_instant := read_state.latest_instant
  match (try_take_undecoded is_reliable topic_cache latest_instant
      read_state.last_read_sn now).head? with
  | none => (.ok none, read_state)
  | some (timestamp, cc) =>
    match deserialize ko DA timestamp cc read_state.hash_to_key_map with
    | .ok (dcc, m) =>
      (.ok (some dcc),
       { latest_instant := max read_state.latest_instant timestamp,
         last_read_sn :=
           mapInsert read_state.last_read_sn dcc.writer_guid dcc.sequence_number,
         hash_to_key_map := m })
    | .error string =>
      (.error (DDSError.serialization_error
         (string ++ " Topic = " ++ r.topic_name ++ ", Type = " ++ r.topic_type)),
       read_state)

/-- `SimpleDataReader::try_take_one_seed`: like `try_take_one` but decoding
the payload with a caller-supplied seed. -/
def try_take_one_seed {D K S : Type} (ko : KeyOps D K)
    (DA : SeedDeserializerAdapter D K S) (r : SimpleDataReader)
    (topic_cache : TopicCache) (now : Timestamp) (deserialize_arg : S)
    (read_state : ReadState K) :
    Except DDSError (Option (DeserializedCacheChange D K)) × ReadState K :=
  let is_reliable := r.qos_policy.is_reliable
  let latest_instant := read_state.latest_instant
  match (try_take_undecoded is_reliable topic_cache latest_instant
      read_state.last_read_sn now).head? with
  | none => (.ok none, read_state)
  | some (timestamp, cc) =>
    match deserialize_seed ko DA timestamp cc read_state.hash_to_key_map
        deserialize_arg with
    | .ok (dcc, m) =>
      (.ok (some dcc),
       { latest_instant := max read_state.latest_instant timestamp,
         last_read_sn :=
           mapInsert read_state.last_read_sn dcc.writer_guid dcc.sequence_number,
         hash_to_key_map := m })
    | .error string =>
      (.error (DDSError.serialization_error
         (string ++ " Topic = " ++ r.topic_name ++ ", Type = " ++ r.topic_type)),
       read_state)

/-! ## No-key adapter (`dds/no_key/simpledatareader.rs`) -/

/-- Modelled from the spec: the no-key `DeserializedCacheChange<D>` (defined
in `dds/no_key/datasample.rs`, not among the given sources): timestamp,
writer identity and sequence number plus the decoded value. -/
structure NoKeyDeserializedCacheChange (D : Type) where
  receive_instant : Timestamp
  writer_guid : GUID
  sequence_number : SequenceNumber
  sample : D
  deriving DecidableEq, Repr

/-- Modelled from the spec: `no_key::DeserializedCacheChange::from_keyed`
(§4.3): project `Sample::Value(v)` to `some v` and drop `Sample::Dispose`. -/
def NoKeyDeserializedCacheChange.from_keyed {D : Type}
    (kdcc : DeserializedCacheChange D Unit) :
    Option (NoKeyDeserializedCacheChange D) :=
  match kdcc.sample with
  | .value v =>
    some ⟨kdcc.receive_instant, kdcc.writer_guid, kdcc.sequence_number, v⟩
  | .dispose _ => none

/-- Modelled from the spec: the key operations of `NoKeyWrapper<D>` — the key
type is the unit type, `key` returns it, and its hash is a fixed constant. -/
def noKeyOps (D : Type) : KeyOps D Unit :=
  { key := fun _ => (), hash_key := fun _ => 0 }

/-- `no_key::SimpleDataReader::try_take_one`: delegate to the keyed reader
with the unit key type, then filter the result through `from_keyed`. -/
def noKey_try_take_one {D : Type} (DA : DeserializerAdapter D Unit)
    (r : SimpleDataReader) (topic_cache : TopicCache) (now : Timestamp)
    (read_state : ReadState Unit) :
    Except DDSError (Option (NoKeyDeserializedCacheChange D)) × ReadState Unit :=
  match try_take_one (noKeyOps D) DA r topic_cache now read_state with
  | (.error e, rs') => (.error e, rs')
  | (.ok none, rs') => (.ok none, rs')
  | (.ok (some kdcc), rs') =>
    match NoKeyDeserializedCacheChange.from_keyed kdcc with
    | some dcc => (.ok (some dcc), rs')
    | none => (.ok none, rs')

/-! ## Async stream adapter (`SimpleDataReaderStream`) -/

/-- An async task waker, opaque to the reader. -/
abbrev Waker := Nat

/-- The reader-side mutable state visible to the stream: the read pointers
and the mutex-guarded waker slot. -/
structure StreamState (K : Type) where
  read_state : ReadState K
  waker : Option Waker
  deriving DecidableEq, Repr

/-- `SimpleDataReader::set_waker`. -/
def set_waker {K : Type} (st : StreamState K) (w : Option Waker) : StreamState K :=
  { st with waker := w }

/-- `Poll` of the future / stream machinery. -/
inductive TaskPoll (α : Type) where
  | ready (a : α)
  | pending
  deriving DecidableEq, Repr

/-- `SimpleDataReaderStream::poll_next`.  Between the first and the second
`try_take_one` the receive path may append to the cache, so the two calls get
separate cache views (`env1`, `env2`) and `now` values. -/
def poll_next {D K : Type} (ko : KeyOps D K) (DA : DeserializerAdapter D K)
    (r : SimpleDataReader) (env1 env2 : TopicCache × Timestamp)
    (cx_waker : Waker) (st : StreamState K) :
    TaskPoll (Option (Except DDSError (DeserializedCacheChange D K))) ×
      StreamState K :=
  match try_take_one ko DA r env1.1 env1.2 st.read_state with
  | (.error e, rs') => (.ready (some (.error e)), { st with read_state := rs' })
  | (.ok (some d), rs') => (.ready (some (.ok d)), { st with read_state := rs' })
  | (.ok none, rs') =>
    let st1 := set_waker { st with read_state := rs' } (some cx_waker)
    match try_take_one ko DA r env2.1 env2.2 st1.read_state with
    | (.error e, rs'') => (.ready (some (.error e)), { st1 with read_state := rs'' })
    | (.ok (some d), rs'') => (.ready (some (.ok d)), { st1 with read_state := rs'' })
    | (.ok none, rs'') => (.pending, { st1 with read_state := rs'' })

/-- `SimpleDataReaderStream::is_terminated` (`FusedStream`): constantly
false — the stream never terminates. -/
def stream_is_terminated : Bool := false

/-! ## Execution traces: repeated `try_take_one` calls -/

/-- One call environment: the topic cache view at the time of the call (the
receive path may have appended between calls) and the current time. -/
structure Env where
  topic_cache : TopicCache
  now : Timestamp

/-- One step of a trace: the head cache change the call examined (if any),
the call's result, and the post `ReadState`. -/
structure RunStep (D K : Type) where
  taken : Option (Timestamp × CacheChange)
  result : Except DDSError (Option (DeserializedCacheChange D K))
  post : ReadState K

/-- Run a sequence of `try_take_one` calls, one per environment, threading
the `ReadState`; record for each call the examined head change, the result
and the post state. -/
def run {D K : Type} (ko : KeyOps D K) (DA : DeserializerAdapter D K)
    (r : SimpleDataReader) (read_state : ReadState K) :
    List Env → List (RunStep D K)
  | [] => []
  | e :: es =>
    let taken := (try_take_undecoded r.qos_policy.is_reliable e.topic_cache
      read_state.latest_instant read_state.last_read_sn e.now).head?
    let p := try_take_one ko DA r e.topic_cache e.now read_state
    ⟨taken, p.1, p.2⟩ :: run ko DA r p.2 es

/-- The final `ReadState` after a sequence of `try_take_one` calls. -/
def runFinal {D K : Type} (ko : KeyOps D K) (DA : DeserializerAdapter D K)
    (r : SimpleDataReader) (read_state : ReadState K) :
    List Env → ReadState K
  | [] => read_state
  | e :: es =>
    runFinal ko DA r (try_take_one ko DA r e.topic_cache e.now read_state).2 es

/-- The successfully delivered changes of a trace, in order. -/
def deliveries {D K : Type} (tr : List (RunStep D K)) :
    List (DeserializedCacheChange D K) :=
  tr.filterMap fun s =>
    match s.result with
    | .ok (some d) => some d
    | _ => none

/-- The key recorded into `hash_to_key_map` by one step, if any: a successful
delivery decoded from a `Data` or `DisposeByKey` payload records its sample's
instance key; dispose-by-hash deliveries and failures record nothing. -/
def stepRecordedKey {D K : Type} (ko : KeyOps D K) (s : RunStep D K) : Option K :=
  match s.taken, s.result with
  | some (_, cc), .ok (some dcc) =>
    match cc.data_value with
    | .disposeByKeyHash _ => none
    | _ => some (dcc.sample.instance_key ko)
  | _, _ => none

/-- All keys recorded into `hash_to_key_map` along a trace, in order. -/
def recordedKeys {D K : Type} (ko : KeyOps D K) (tr : List (RunStep D K)) :
    List K :=
  tr.filterMap (stepRecordedKey ko)

/-- The most recently recorded key whose hash is `h`, if any. -/
def latestKeyWithHash {D K : Type} (ko : KeyOps D K) (ks : List K) (h : KeyHash) :
    Option K :=
  ks.reverse.find? (fun k => ko.hash_key k == h)

/-! ## Concrete instances used to exercise the model -/

/-- Modelled from the spec: a topic cache backed by an explicit list of
`(timestamp, change)` entries.  The best-effort query keeps entries with
timestamp strictly above the lower bound and at most `now`; the reliable
query keeps entries whose sequence number strictly exceeds the reader's
last-read sequence number for their writer (all of a writer's entries when
the writer is unknown). -/
def listCache (l : List (Timestamp × CacheChange)) : TopicCache where
  get_changes_in_range_reliable := fun last_read_sn =>
    l.filter fun p =>
      match mapLookup last_read_sn p.2.writer_guid with
      | some s => decide (s < p.2.sequence_number)
      | none => true
  get_changes_in_range_best_effort := fun lo hi =>
    l.filter fun p => decide (lo < p.1) && decide (p.1 ≤ hi)

/-- A concrete key discipline on naturals: the key of a value is its last
decimal digit, hashed by adding 100. -/
def exKeyOps : KeyOps Nat Nat :=
  { key := fun d => d % 10, hash_key := fun k => k + 100 }

/-- A concrete adapter accepting encodings 1 and 2 and decoding singleton
byte lists. -/
def exAdapter : DeserializerAdapter Nat Nat :=
  { supported_encodings := [1, 2]
    from_bytes := fun b _ =>
      match b with
      | [n] => .ok n
      | _ => .error "bad payload"
    key_from_bytes := fun b _ =>
      match b with
      | [n] => .ok n
      | _ => .error "bad key" }

/-- A concrete seeded adapter: the seed is added to the decoded value. -/
def exSeedAdapter : SeedDeserializerAdapter Nat Nat Nat :=
  { supported_encodings := [1, 2]
    from_bytes := fun s b _ =>
      match b with
      | [n] => .ok (n + s)
      | _ => .error "bad payload"
    key_from_bytes := fun b _ =>
      match b with
      | [n] => .ok n
      | _ => .error "bad key" }

/-- A concrete adapter for the no-key reader: the key type is unit. -/
def exAdapterU : DeserializerAdapter Nat Unit :=
  { supported_encodings := [1, 2]
    from_bytes := fun b _ =>
      match b with
      | [n] => .ok n
      | _ => .error "bad payload"
    key_from_bytes := fun _ _ => .ok () }

/-- A concrete reliable reader. -/
def exReaderRel : SimpleDataReader :=
  { qos_policy := { reliability := some (.reliable 5) }
    topic_name := "square", topic_type := "Nat" }

/-- A concrete best-effort reader. -/
def exReaderBE : SimpleDataReader :=
  { qos_policy := { reliability := some .best_effort }
    topic_name := "square", topic_type := "Nat" }

/-! ## Basic lemmas -/

theorem mapLookup_filter_ne {β : Type} (m : List (Nat × β)) (a x : Nat)
    (hx : x ≠ a) :
    mapLookup (m.filter (fun p => decide (p.1 ≠ a))) x = mapLookup m x := by
  induction m with
  | nil => rfl
  | cons p m ih =>
    cases p with
    | mk c d =>
      rw [List.filter_cons]
      by_cases hca : c = a
      · have h1 : (decide ((c, d).1 ≠ a)) = false := by simp [hca]
        rw [h1]
        simp only [Bool.false_eq_true, if_false]
        rw [ih]
        have hxc : x ≠ c := fun h => hx (h.trans hca)
        simp [mapLookup, hxc]
      · have h1 : (decide ((c, d).1 ≠ a)) = true := by simp [hca]
        rw [h1]
        simp only [if_true]
        by_cases hxc : x = c
        · simp [mapLookup, hxc]
        · simp only [mapLookup, hxc, if_false]
          exact ih

theorem mapLookup_mapInsert {β : Type} (m : List (Nat × β)) (a x : Nat) (b : β) :
    mapLookup (mapInsert m a b) x = if x = a then some b else mapLookup m x := by
  unfold mapInsert
  by_cases hx : x = a
  · simp [mapLookup, hx]
  · simp only [mapLookup, hx, if_false]
    exact mapLookup_filter_ne m a x hx

theorem find?_beq_self_of_mem {l : List Nat} {x : Nat} (hx : x ∈ l) :
    l.find? (fun r => r == x) = some x := by
  induction l with
  | nil => cases hx
  | cons a l ih =>
    by_cases hax : a = x
    · subst hax; simp [List.find?]
    · have : (a == x) = false := by simp [hax]
      rw [List.find?_cons, this]
      exact ih (by
        rcases List.mem_cons.mp hx with h | h
        · exact absurd h.symm hax
        · exact h)

/-! ## Case characterizations of `try_take_one` -/

/-- `try_take_one` unfolded to its top-level match. -/
theorem try_take_one_eq {D K : Type} (ko : KeyOps D K)
    (DA : DeserializerAdapter D K) (r : SimpleDataReader)
    (topic_cache : TopicCache) (now : Timestamp) (rs : ReadState K) :
    try_take_one ko DA r topic_cache now rs =
      match (try_take_undecoded r.qos_policy.is_reliable topic_cache
          rs.latest_instant rs.last_read_sn now).head? with
      | none => (.ok none, rs)
      | some (timestamp, cc) =>
        match deserialize ko DA timestamp cc rs.hash_to_key_map with
        | .ok (dcc, m) =>
          (.ok (some dcc),
           { latest_instant := max rs.latest_instant timestamp,
             last_read_sn :=
               mapInsert rs.last_read_sn dcc.writer_guid dcc.sequence_number,
             hash_to_key_map := m })
        | .error string =>
          (.error (DDSError.serialization_error
             (string ++ " Topic = " ++ r.topic_name ++ ", Type = " ++
               r.topic_type)), rs) := rfl

/-- `try_take_one_seed` unfolded to its top-level match. -/
theorem try_take_one_seed_eq {D K S : Type} (ko : KeyOps D K)
    (DA : SeedDeserializerAdapter D K S) (r : SimpleDataReader)
    (topic_cache : TopicCache) (now : Timestamp) (seed : S) (rs : ReadState K) :
    try_take_one_seed ko DA r topic_cache now seed rs =
      match (try_take_undecoded r.qos_policy.is_reliable topic_cache
          rs.latest_instant rs.last_read_sn now).head? with
      | none => (.ok none, rs)
      | some (timestamp, cc) =>
        match deserialize_seed ko DA timestamp cc rs.hash_to_key_map seed with
        | .ok (dcc, m) =>
          (.ok (some dcc),
           { latest_instant := max rs.latest_instant timestamp,
             last_read_sn :=
               mapInsert rs.last_read_sn dcc.writer_guid dcc.sequence_number,
             hash_to_key_map := m })
        | .error string =>
          (.error (DDSError.serialization_error
             (string ++ " Topic = " ++ r.topic_name ++ ", Type = " ++
               r.topic_type)), rs) := rfl

/-- A successful `deserialize_inner` copies the timestamp, writer and
sequence number of the source change into the delivered sample. -/
theorem deserialize_inner_ok_shape {D K : Type} {ko : KeyOps D K}
    {kfb : Bytes → RepresentationIdentifier → Except String K}
    {cc : CacheChange} {m0 : List (KeyHash × K)} {ts : Timestamp}
    {enc : List RepresentationIdentifier}
    {des : Bytes → RepresentationIdentifier → Except String D}
    {dcc : DeserializedCacheChange D K} {m : List (KeyHash × K)}
    (h : deserialize_inner ko kfb cc m0 ts enc des = .ok (dcc, m)) :
    dcc.receive_instant = ts ∧ dcc.writer_guid = cc.writer_guid ∧
      dcc.sequence_number = cc.sequence_number := by
  unfold deserialize_inner at h
  rcases cc with ⟨w, sn, dv⟩
  cases dv with
  | data sp =>
    cases hf : enc.find? (fun r => r == sp.representation_identifier) with
    | none => simp only [hf] at h; exact Except.noConfusion h
    | some rep =>
      simp only [hf] at h
      cases hd : des sp.value rep with
      | ok payload =>
        simp only [hd, Except.ok.injEq, Prod.mk.injEq] at h
        obtain ⟨h1, h2⟩ := h
        subst h1
        simp [DeserializedCacheChange.mk']
      | error e => simp only [hd] at h; exact Except.noConfusion h
  | disposeByKey sk =>
    cases hk : kfb sk.value sk.representation_identifier with
    | ok key =>
      simp only [hk, Except.ok.injEq, Prod.mk.injEq] at h
      obtain ⟨h1, h2⟩ := h
      subst h1
      simp [DeserializedCacheChange.mk']
    | error e => simp only [hk] at h; exact Except.noConfusion h
  | disposeByKeyHash kh =>
    cases hl : mapLookup m0 kh with
    | some key =>
      simp only [hl, Except.ok.injEq, Prod.mk.injEq] at h
      obtain ⟨h1, h2⟩ := h
      subst h1
      simp [DeserializedCacheChange.mk']
    | none => simp only [hl] at h; exact Except.noConfusion h

/-- If the selected range is empty, `try_take_one` returns `Ok(None)` and
leaves the state unchanged. -/
theorem try_take_one_of_head_none {D K : Type} (ko : KeyOps D K)
    (DA : DeserializerAdapter D K) (r : SimpleDataReader)
    (topic_cache : TopicCache) (now : Timestamp) (rs : ReadState K)
    (h : (try_take_undecoded r.qos_policy.is_reliable topic_cache
      rs.latest_instant rs.last_read_sn now).head? = none) :
    try_take_one ko DA r topic_cache now rs = (.ok none, rs) := by
  rw [try_take_one_eq]
  simp only [h]

/-- If the head decodes successfully, `try_take_one` delivers it and advances
the read pointers. -/
theorem try_take_one_of_head_ok {D K : Type} (ko : KeyOps D K)
    (DA : DeserializerAdapter D K) (r : SimpleDataReader)
    (topic_cache : TopicCache) (now : Timestamp) (rs : ReadState K)
    {ts : Timestamp} {cc : CacheChange} {dcc : DeserializedCacheChange D K}
    {m : List (KeyHash × K)}
    (h : (try_take_undecoded r.qos_policy.is_reliable topic_cache
      rs.latest_instant rs.last_read_sn now).head? = some (ts, cc))
    (hd : deserialize ko DA ts cc rs.hash_to_key_map = .ok (dcc, m)) :
    try_take_one ko DA r topic_cache now rs =
      (.ok (some dcc),
       { latest_instant := max rs.latest_instant ts,
         last_read_sn :=
           mapInsert rs.last_read_sn dcc.writer_guid dcc.sequence_number,
         hash_to_key_map := m }) := by
  rw [try_take_one_eq]
  simp only [h, hd]

/-- If the head fails to decode, `try_take_one` returns the serialization
error, decorated with topic name and type, and leaves the state unchanged. -/
theorem try_take_one_of_head_error {D K : Type} (ko : KeyOps D K)
    (DA : DeserializerAdapter D K) (r : SimpleDataReader)
    (topic_cache : TopicCache) (now : Timestamp) (rs : ReadState K)
    {ts : Timestamp} {cc : CacheChange} {s : String}
    (h : (try_take_undecoded r.qos_policy.is_reliable topic_cache
      rs.latest_instant rs.last_read_sn now).head? = some (ts, cc))
    (hd : deserialize ko DA ts cc rs.hash_to_key_map = .error s) :
    try_take_one ko DA r topic_cache now rs =
      (.error (DDSError.serialization_error
         (s ++ " Topic = " ++ r.topic_name ++ ", Type = " ++ r.topic_type)),
       rs) := by
  rw [try_take_one_eq]
  simp only [h, hd]

/-- Inverse characterization: whenever `try_take_one` returns an error, the
`ReadState` it returns is exactly the input state. -/
theorem try_take_one_error_inv {D K : Type} (ko : KeyOps D K)
    (DA : DeserializerAdapter D K) (r : SimpleDataReader)
    (topic_cache : TopicCache) (now : Timestamp) (rs : ReadState K)
    {e : DDSError}
    (h : (try_take_one ko DA r topic_cache now rs).1 = .error e) :
    (try_take_one ko DA r topic_cache now rs).2 = rs := by
  cases hh : (try_take_undecoded r.qos_policy.is_reliable topic_cache
      rs.latest_instant rs.last_read_sn now).head? with
  | none => rw [try_take_one_of_head_none ko DA r topic_cache now rs hh]
  | some p =>
    obtain ⟨ts, cc⟩ := p
    cases hd : deserialize ko DA ts cc rs.hash_to_key_map with
    | ok q =>
      obtain ⟨dcc, m⟩ := q
      rw [try_take_one_of_head_ok ko DA r topic_cache now rs hh hd] at h
      exact Except.noConfusion h
    | error s => rw [try_take_one_of_head_error ko DA r topic_cache now rs hh hd]

/-- Inverse characterization: `try_take_one` returns `Ok(None)` only when the
selected range was empty, and then the state is unchanged. -/
theorem try_take_one_ok_none_inv {D K : Type} (ko : KeyOps D K)
    (DA : DeserializerAdapter D K) (r : SimpleDataReader)
    (topic_cache : TopicCache) (now : Timestamp) (rs : ReadState K)
    (h : (try_take_one ko DA r topic_cache now rs).1 = .ok none) :
    (try_take_one ko DA r topic_cache now rs).2 = rs ∧
      (try_take_undecoded r.qos_policy.is_reliable topic_cache
        rs.latest_instant rs.last_read_sn now).head? = none := by
  cases hh : (try_take_undecoded r.qos_policy.is_reliable topic_cache
      rs.latest_instant rs.last_read_sn now).head? with
  | none =>
    rw [try_take_one_of_head_none ko DA r topic_cache now rs hh]
    exact ⟨rfl, rfl⟩
  | some p =>
    obtain ⟨ts, cc⟩ := p
    cases hd : deserialize ko DA ts cc rs.hash_to_key_map with
    | ok q =>
      obtain ⟨dcc, m⟩ := q
      rw [try_take_one_of_head_ok ko DA r topic_cache now rs hh hd] at h
      simp at h
    | error s =>
      rw [try_take_one_of_head_error ko DA r topic_cache now rs hh hd] at h
      exact Except.noConfusion h

/-- Inverse characterization of a successful delivery: the head change
existed, decoded successfully, its identity fields were copied into the
delivered sample, and the pointers advanced exactly as specified. -/
theorem try_take_one_ok_some_inv {D K : Type} (ko : KeyOps D K)
    (DA : DeserializerAdapter D K) (r : SimpleDataReader)
    (topic_cache : TopicCache) (now : Timestamp) (rs : ReadState K)
    {dcc : DeserializedCacheChange D K}
    (h : (try_take_one ko DA r topic_cache now rs).1 = .ok (some dcc)) :
    ∃ ts cc m,
      (try_take_undecoded r.qos_policy.is_reliable topic_cache
        rs.latest_instant rs.last_read_sn now).head? = some (ts, cc) ∧
      deserialize ko DA ts cc rs.hash_to_key_map = .ok (dcc, m) ∧
      (try_take_one ko DA r topic_cache now rs).2 =
        { latest_instant := max rs.latest_instant ts,
          last_read_sn :=
            mapInsert rs.last_read_sn cc.writer_guid cc.sequence_number,
          hash_to_key_map := m } ∧
      dcc.receive_instant = ts ∧ dcc.writer_guid = cc.writer_guid ∧
      dcc.sequence_number = cc.sequence_number := by
  cases hh : (try_take_undecoded r.qos_policy.is_reliable topic_cache
      rs.latest_instant rs.last_read_sn now).head? with
  | none =>
    rw [try_take_one_of_head_none ko DA r topic_cache now rs hh] at h
    simp at h
  | some p =>
    obtain ⟨ts, cc⟩ := p
    cases hd : deserialize ko DA ts cc rs.hash_to_key_map with
    | ok q =>
      obtain ⟨dcc', m⟩ := q
      rw [try_take_one_of_head_ok ko DA r topic_cache now rs hh hd] at h
      simp only [Except.ok.injEq, Option.some.injEq] at h
      subst h
      obtain ⟨h1, h2, h3⟩ := deserialize_inner_ok_shape hd
      refine ⟨ts, cc, m, rfl, hd, ?_, h1, h2, h3⟩
      rw [try_take_one_of_head_ok ko DA r topic_cache now rs hh hd]
      simp [h2, h3]
    | error s =>
      rw [try_take_one_of_head_error ko DA r topic_cache now rs hh hd] at h
      exact Except.noConfusion h

/-- Decoding a `Data` payload whose representation id is not supported fails
with the "Unknown representation id" message, whatever the decoder is. -/
theorem deserialize_inner_data_unknown {D K : Type} (ko : KeyOps D K)
    (kfb : Bytes → RepresentationIdentifier → Except String K)
    {cc : CacheChange} (m0 : List (KeyHash × K)) (ts : Timestamp)
    (enc : List RepresentationIdentifier)
    (des : Bytes → RepresentationIdentifier → Except String D)
    {sp : SerializedPayload} (hcc : cc.data_value = .data sp)
    (hns : sp.representation_identifier ∉ enc) :
    deserialize_inner ko kfb cc m0 ts enc des =
      .error ("Unknown representation id " ++
        toString sp.representation_identifier ++ ".") := by
  have hf : enc.find? (fun r => r == sp.representation_identifier) = none := by
    rw [List.find?_eq_none]
    intro x hx hbeq
    have hxe : x = sp.representation_identifier := by
      exact eq_of_beq hbeq
    exact hns (hxe ▸ hx)
  unfold deserialize_inner
  rw [hcc]
  simp only [hf]

/-- Decoding a `Data` payload with a supported representation id invokes the
decoder at exactly the payload bytes and the payload's own representation id
(the first supported encoding equal to it). -/
theorem deserialize_inner_data_supported {D K : Type} (ko : KeyOps D K)
    (kfb : Bytes → RepresentationIdentifier → Except String K)
    {cc : CacheChange} (m0 : List (KeyHash × K)) (ts : Timestamp)
    (enc : List RepresentationIdentifier)
    (des : Bytes → RepresentationIdentifier → Except String D)
    {sp : SerializedPayload} (hcc : cc.data_value = .data sp)
    (hs : sp.representation_identifier ∈ enc) :
    deserialize_inner ko kfb cc m0 ts enc des =
      match des sp.value sp.representation_identifier with
      | .ok payload =>
        .ok (DeserializedCacheChange.mk' ts cc (Sample.value payload),
             update_hash_to_key_map ko m0 (Sample.value payload))
      | .error e => .error ("Failed to deserialize sample bytes: " ++ e ++ ", ") := by
  unfold deserialize_inner
  rw [hcc]
  simp only [find?_beq_self_of_mem hs]

/-- Decoding a non-`Data` payload does not consult the payload decoder at
all: the result is the same for any two decoders. -/
theorem deserialize_inner_dispose_indep {D K : Type} (ko : KeyOps D K)
    (kfb : Bytes → RepresentationIdentifier → Except String K)
    {cc : CacheChange} (m0 : List (KeyHash × K)) (ts : Timestamp)
    (enc : List RepresentationIdentifier)
    (des1 des2 : Bytes → RepresentationIdentifier → Except String D)
    (hcc : ∀ sp, cc.data_value ≠ .data sp) :
    deserialize_inner ko kfb cc m0 ts enc des1 =
      deserialize_inner ko kfb cc m0 ts enc des2 := by
  unfold deserialize_inner
  cases h : cc.data_value with
  | data sp => exact absurd h (hcc sp)
  | disposeByKey sk => rfl
  | disposeByKeyHash kh => rfl

/-- Dispose-by-hash with a known hash delivers the mapped key and leaves the
hash map unchanged. -/
theorem deserialize_inner_hash_hit {D K : Type} (ko : KeyOps D K)
    (kfb : Bytes → RepresentationIdentifier → Except String K)
    {cc : CacheChange} (m0 : List (KeyHash × K)) (ts : Timestamp)
    (enc : List RepresentationIdentifier)
    (des : Bytes → RepresentationIdentifier → Except String D)
    {kh : KeyHash} {k : K} (hcc : cc.data_value = .disposeByKeyHash kh)
    (hl : mapLookup m0 kh = some k) :
    deserialize_inner ko kfb cc m0 ts enc des =
      .ok (DeserializedCacheChange.mk' ts cc (Sample.dispose k), m0) := by
  unfold deserialize_inner
  rw [hcc]
  simp only [hl]

/-- Dispose-by-hash with an unknown hash fails with the "unknown key hash"
message. -/
theorem deserialize_inner_hash_miss {D K : Type} (ko : KeyOps D K)
    (kfb : Bytes → RepresentationIdentifier → Except String K)
    {cc : CacheChange} (m0 : List (KeyHash × K)) (ts : Timestamp)
    (enc : List RepresentationIdentifier)
    (des : Bytes → RepresentationIdentifier → Except String D)
    {kh : KeyHash} (hcc : cc.data_value = .disposeByKeyHash kh)
    (hl : mapLookup m0 kh = none) :
    deserialize_inner ko kfb cc m0 ts enc des =
      .error ("Tried to dispose with unknown key hash: " ++ toString kh) := by
  unfold deserialize_inner
  rw [hcc]
  simp only [hl]

/-- On a successful decode, the new hash map is the old one, extended with
the sample's instance key keyed by its hash exactly when the payload was a
`Data` or `DisposeByKey` variant. -/
theorem deserialize_inner_ok_update {D K : Type} {ko : KeyOps D K}
    {kfb : Bytes → RepresentationIdentifier → Except String K}
    {cc : CacheChange} {m0 : List (KeyHash × K)} {ts : Timestamp}
    {enc : List RepresentationIdentifier}
    {des : Bytes → RepresentationIdentifier → Except String D}
    {dcc : DeserializedCacheChange D K} {m : List (KeyHash × K)}
    (h : deserialize_inner ko kfb cc m0 ts enc des = .ok (dcc, m)) :
    m = match cc.data_value with
      | .disposeByKeyHash _ => m0
      | _ =>
        mapInsert m0 (ko.hash_key (dcc.sample.instance_key ko))
          (dcc.sample.instance_key ko) := by
  unfold deserialize_inner at h
  rcases cc with ⟨w, sn, dv⟩
  cases dv with
  | data sp =>
    cases hf : enc.find? (fun r => r == sp.representation_identifier) with
    | none => simp only [hf] at h; exact Except.noConfusion h
    | some rep =>
      simp only [hf] at h
      cases hd : des sp.value rep with
      | ok payload =>
        simp only [hd, Except.ok.injEq, Prod.mk.injEq] at h
        obtain ⟨h1, h2⟩ := h
        subst h1
        subst h2
        simp [update_hash_to_key_map, Sample.instance_key,
          DeserializedCacheChange.mk']
      | error e => simp only [hd] at h; exact Except.noConfusion h
  | disposeByKey sk =>
    cases hk : kfb sk.value sk.representation_identifier with
    | ok key =>
      simp only [hk, Except.ok.injEq, Prod.mk.injEq] at h
      obtain ⟨h1, h2⟩ := h
      subst h1
      subst h2
      simp [update_hash_to_key_map, Sample.instance_key,
        DeserializedCacheChange.mk']
    | error e => simp only [hk] at h; exact Except.noConfusion h
  | disposeByKeyHash kh =>
    cases hl : mapLookup m0 kh with
    | some key =>
      simp only [hl, Except.ok.injEq, Prod.mk.injEq] at h
      obtain ⟨h1, h2⟩ := h
      subst h2
      rfl
    | none => simp only [hl] at h; exact Except.noConfusion h

/-- `try_take_one` never decreases `latest_instant`. -/
theorem try_take_one_latest_mono {D K : Type} (ko : KeyOps D K)
    (DA : DeserializerAdapter D K) (r : SimpleDataReader)
    (topic_cache : TopicCache) (now : Timestamp) (rs : ReadState K) :
    rs.latest_instant ≤ (try_take_one ko DA r topic_cache now rs).2.latest_instant := by
  cases hh : (try_take_undecoded r.qos_policy.is_reliable topic_cache
      rs.latest_instant rs.last_read_sn now).head? with
  | none => rw [try_take_one_of_head_none ko DA r topic_cache now rs hh]
  | some p =>
    obtain ⟨ts, cc⟩ := p
    cases hd : deserialize ko DA ts cc rs.hash_to_key_map with
    | ok q =>
      obtain ⟨dcc, m⟩ := q
      rw [try_take_one_of_head_ok ko DA r topic_cache now rs hh hd]
      exact le_max_left _ _
    | error s => rw [try_take_one_of_head_error ko DA r topic_cache now rs hh hd]

/-- `runFinal` never decreases `latest_instant`. -/
theorem runFinal_latest_mono {D K : Type} (ko : KeyOps D K)
    (DA : DeserializerAdapter D K) (r : SimpleDataReader) (rs : ReadState K)
    (envs : List Env) :
    rs.latest_instant ≤ (runFinal ko DA r rs envs).latest_instant := by
  induction envs generalizing rs with
  | nil => exact le_refl _
  | cons e es ih =>
    exact le_trans (try_take_one_latest_mono ko DA r e.topic_cache e.now rs)
      (ih _)

/-- `try_take_one_seed` coincides with `try_take_one` run with the plain
adapter obtained by fixing the seed in the seeded adapter's decoder. -/
theorem try_take_one_seed_as_plain {D K S : Type} (ko : KeyOps D K)
    (SDA : SeedDeserializerAdapter D K S) (r : SimpleDataReader)
    (topic_cache : TopicCache) (now : Timestamp) (seed : S) (rs : ReadState K) :
    try_take_one_seed ko SDA r topic_cache now seed rs =
      try_take_one ko
        ⟨SDA.supported_encodings, SDA.from_bytes seed, SDA.key_from_bytes⟩
        r topic_cache now rs := rfl

/-- The hash → key map after one `try_take_one` call: extended with the
recorded key of the step when there is one, unchanged otherwise. -/
theorem try_take_one_hash_map_step {D K : Type} (ko : KeyOps D K)
    (DA : DeserializerAdapter D K) (r : SimpleDataReader)
    (topic_cache : TopicCache) (now : Timestamp) (rs : ReadState K) :
    (try_take_one ko DA r topic_cache now rs).2.hash_to_key_map =
      match stepRecordedKey ko
        ⟨(try_take_undecoded r.qos_policy.is_reliable topic_cache
            rs.latest_instant rs.last_read_sn now).head?,
         (try_take_one ko DA r topic_cache now rs).1,
         (try_take_one ko DA r topic_cache now rs).2⟩ with
      | some k => mapInsert rs.hash_to_key_map (ko.hash_key k) k
      | none => rs.hash_to_key_map := by
  cases hh : (try_take_undecoded r.qos_policy.is_reliable topic_cache
      rs.latest_instant rs.last_read_sn now).head? with
  | none =>
    rw [try_take_one_of_head_none ko DA r topic_cache now rs hh]
    simp [stepRecordedKey]
  | some p =>
    obtain ⟨ts, cc⟩ := p
    cases hd : deserialize ko DA ts cc rs.hash_to_key_map with
    | error s =>
      rw [try_take_one_of_head_error ko DA r topic_cache now rs hh hd]
      simp [stepRecordedKey]
    | ok q =>
      obtain ⟨dcc, m⟩ := q
      rw [try_take_one_of_head_ok ko DA r topic_cache now rs hh hd]
      have hm := deserialize_inner_ok_update hd
      cases hv : cc.data_value with
      | data sp =>
        rw [hv] at hm
        simp only [stepRecordedKey, hv]
        exact hm
      | disposeByKey sk =>
        rw [hv] at hm
        simp only [stepRecordedKey, hv]
        exact hm
      | disposeByKeyHash kh =>
        rw [hv] at hm
        simp only [stepRecordedKey, hv]
        exact hm

theorem run_cons {D K : Type} (ko : KeyOps D K) (DA : DeserializerAdapter D K)
    (r : SimpleDataReader) (rs : ReadState K) (e : Env) (es : List Env) :
    run ko DA r rs (e :: es) =
      ⟨(try_take_undecoded r.qos_policy.is_reliable e.topic_cache
          rs.latest_instant rs.last_read_sn e.now).head?,
       (try_take_one ko DA r e.topic_cache e.now rs).1,
       (try_take_one ko DA r e.topic_cache e.now rs).2⟩ ::
        run ko DA r (try_take_one ko DA r e.topic_cache e.now rs).2 es := rfl

theorem runFinal_cons {D K : Type} (ko : KeyOps D K)
    (DA : DeserializerAdapter D K) (r : SimpleDataReader) (rs : ReadState K)
    (e : Env) (es : List Env) :
    runFinal ko DA r rs (e :: es) =
      runFinal ko DA r (try_take_one ko DA r e.topic_cache e.now rs).2 es := rfl

/-- The best-effort query of a `listCache` returns only stored entries with
timestamp strictly above the lower bound. -/
theorem listCache_best_effort_mem {l : List (Timestamp × CacheChange)}
    {lo hi : Timestamp} {x : Timestamp × CacheChange}
    (hx : x ∈ (listCache l).get_changes_in_range_best_effort lo hi) :
    x ∈ l ∧ lo < x.1 := by
  unfold listCache at hx
  simp only [List.mem_filter, Bool.and_eq_true, decide_eq_true_eq] at hx
  exact ⟨hx.1, hx.2.1⟩

/-- The reliable query of a `listCache` returns only stored entries whose
sequence number strictly exceeds the last-read pointer of their writer. -/
theorem listCache_reliable_gt {l : List (Timestamp × CacheChange)}
    {last_read_sn : List (GUID × SequenceNumber)} {x : Timestamp × CacheChange}
    (hx : x ∈ (listCache l).get_changes_in_range_reliable last_read_sn) :
    x ∈ l ∧ ∀ s, mapLookup last_read_sn x.2.writer_guid = some s →
      s < x.2.sequence_number := by
  unfold listCache at hx
  rw [List.mem_filter] at hx
  refine ⟨hx.1, fun s hs => ?_⟩
  have h2 := hx.2
  rw [hs] at h2
  exact of_decide_eq_true h2

/-! ## Claim theorems -/

/-- C2: whenever `try_take_one` or `try_take_one_seed` returns a
serialization error, the `ReadState` (latest_instant, last_read_sn and
hash_to_key_map alike) is exactly the state before the call, so a subsequent
call under the same cache view and time behaves identically — it selects the
same cache change again. -/
theorem c2_error_atomicity {D K S : Type} (ko : KeyOps D K)
    (DA : DeserializerAdapter D K) (SDA : SeedDeserializerAdapter D K S)
    (seed : S) (r : SimpleDataReader) (tc : TopicCache) (now : Timestamp)
    (rs : ReadState K) :
    (∀ e, (try_take_one ko DA r tc now rs).1 = .error e →
      (try_take_one ko DA r tc now rs).2 = rs ∧
      try_take_one ko DA r tc now (try_take_one ko DA r tc now rs).2 =
        try_take_one ko DA r tc now rs) ∧
    (∀ e, (try_take_one_seed ko SDA r tc now seed rs).1 = .error e →
      (try_take_one_seed ko SDA r tc now seed rs).2 = rs ∧
      try_take_one_seed ko SDA r tc now seed
          (try_take_one_seed ko SDA r tc now seed rs).2 =
        try_take_one_seed ko SDA r tc now seed rs) := by
  constructor
  · intro e he
    have h2 := try_take_one_error_inv ko DA r tc now rs he
    exact ⟨h2, by rw [h2]⟩
  · intro e he
    rw [try_take_one_seed_as_plain] at he ⊢
    have h2 := try_take_one_error_inv ko _ r tc now rs he
    exact ⟨h2, by rw [h2]; rfl⟩

/-- C6: each call considers only the first entry of the selected range —
if the range is empty the call returns `Ok(None)` with the state unchanged,
and any two cache views and times whose selected ranges share the same first
entry produce identical results, so at most one change is delivered. -/
theorem c6_single_change_take {D K : Type} (ko : KeyOps D K)
    (DA : DeserializerAdapter D K) (r : SimpleDataReader)
    (tc tc' : TopicCache) (now now' : Timestamp) (rs : ReadState K) :
    (try_take_undecoded r.qos_policy.is_reliable tc rs.latest_instant
        rs.last_read_sn now = [] →
      try_take_one ko DA r tc now rs = (.ok none, rs)) ∧
    ((try_take_undecoded r.qos_policy.is_reliable tc rs.latest_instant
        rs.last_read_sn now).head? =
      (try_take_undecoded r.qos_policy.is_reliable tc' rs.latest_instant
        rs.last_read_sn now').head? →
      try_take_one ko DA r tc now rs = try_take_one ko DA r tc' now' rs) := by
  constructor
  · intro h
    exact try_take_one_of_head_none ko DA r tc now rs (by rw [h]; rfl)
  · intro h
    rw [try_take_one_eq, try_take_one_eq, h]

/-- C7: a `Data` payload whose representation id is unsupported yields a
serialization error naming the representation id, the topic and the type,
without attempting any decode (the result does not depend on the adapter's
payload decoder); a supported representation id is decoded with the first
matching supported encoding, which equals the payload's own id. -/
theorem c7_unknown_encoding {D K : Type} (ko : KeyOps D K)
    (DA DA2 : DeserializerAdapter D K) (r : SimpleDataReader)
    (tc : TopicCache) (now : Timestamp) (rs : ReadState K)
    {ts : Timestamp} {cc : CacheChange} {sp : SerializedPayload}
    (hh : (try_take_undecoded r.qos_policy.is_reliable tc rs.latest_instant
      rs.last_read_sn now).head? = some (ts, cc))
    (hcc : cc.data_value = .data sp) :
    (sp.representation_identifier ∉ DA.supported_encodings →
      try_take_one ko DA r tc now rs =
        (.error (DDSError.serialization_error
          ("Unknown representation id " ++
            toString sp.representation_identifier ++ "." ++ " Topic = " ++
            r.topic_name ++ ", Type = " ++ r.topic_type)), rs) ∧
      (DA2.supported_encodings = DA.supported_encodings →
        try_take_one ko DA2 r tc now rs = try_take_one ko DA r tc now rs)) ∧
    (sp.representation_identifier ∈ DA.supported_encodings →
      try_take_one ko DA r tc now rs =
        match DA.from_bytes sp.value sp.representation_identifier with
        | .ok payload =>
          (.ok (some (DeserializedCacheChange.mk' ts cc (Sample.value payload))),
           { latest_instant := max rs.latest_instant ts,
             last_read_sn :=
               mapInsert rs.last_read_sn cc.writer_guid cc.sequence_number,
             hash_to_key_map :=
               update_hash_to_key_map ko rs.hash_to_key_map
                 (Sample.value payload) })
        | .error e =>
          (.error (DDSError.serialization_error
            ("Failed to deserialize sample bytes: " ++ e ++ ", " ++
              " Topic = " ++ r.topic_name ++ ", Type = " ++ r.topic_type)),
           rs)) := by
  constructor
  · intro hns
    have herr : deserialize ko DA ts cc rs.hash_to_key_map =
        .error ("Unknown representation id " ++
          toString sp.representation_identifier ++ ".") :=
      deserialize_inner_data_unknown ko DA.key_from_bytes rs.hash_to_key_map
        ts DA.supported_encodings DA.from_bytes hcc hns
    refine ⟨try_take_one_of_head_error ko DA r tc now rs hh herr, ?_⟩
    intro hsup
    have hns2 : sp.representation_identifier ∉ DA2.supported_encodings := by
      rw [hsup]; exact hns
    have herr2 : deserialize ko DA2 ts cc rs.hash_to_key_map =
        .error ("Unknown representation id " ++
          toString sp.representation_identifier ++ ".") :=
      deserialize_inner_data_unknown ko DA2.key_from_bytes rs.hash_to_key_map
        ts DA2.supported_encodings DA2.from_bytes hcc hns2
    rw [try_take_one_of_head_error ko DA2 r tc now rs hh herr2,
      try_take_one_of_head_error ko DA r tc now rs hh herr]
  · intro hs
    have hdes := deserialize_inner_data_supported ko DA.key_from_bytes
      rs.hash_to_key_map ts DA.supported_encodings DA.from_bytes hcc hs
    cases hb : DA.from_bytes sp.value sp.representation_identifier with
    | ok payload =>
      rw [hb] at hdes
      rw [try_take_one_of_head_ok ko DA r tc now rs hh hdes]
      simp [DeserializedCacheChange.mk']
    | error e =>
      rw [hb] at hdes
      rw [try_take_one_of_head_error ko DA r tc now rs hh hdes]

/-- C8: for a cache change whose payload is `DisposeByKey` or
`DisposeByKeyHash`, the seeded take produces exactly the same result and the
same `ReadState` update as the plain take, provided the two adapters agree on
supported encodings and on the stateless key decoder — the seed influences
only `Data` decoding. -/
theorem c8_seed_off_value_path {D K S : Type} (ko : KeyOps D K)
    (DA : DeserializerAdapter D K) (SDA : SeedDeserializerAdapter D K S)
    (seed : S) (r : SimpleDataReader) (tc : TopicCache) (now : Timestamp)
    (rs : ReadState K) {ts : Timestamp} {cc : CacheChange}
    (hh : (try_take_undecoded r.qos_policy.is_reliable tc rs.latest_instant
      rs.last_read_sn now).head? = some (ts, cc))
    (hcc : ∀ sp, cc.data_value ≠ .data sp)
    (hsup : SDA.supported_encodings = DA.supported_encodings)
    (hkey : SDA.key_from_bytes = DA.key_from_bytes) :
    try_take_one_seed ko SDA r tc now seed rs =
      try_take_one ko DA r tc now rs := by
  rw [try_take_one_seed_as_plain]
  have hdes : deserialize ko
      ⟨SDA.supported_encodings, SDA.from_bytes seed, SDA.key_from_bytes⟩
      ts cc rs.hash_to_key_map = deserialize ko DA ts cc rs.hash_to_key_map := by
    unfold deserialize
    dsimp only
    rw [hsup, hkey]
    exact deserialize_inner_dispose_indep ko DA.key_from_bytes
      rs.hash_to_key_map ts DA.supported_encodings _ _ hcc
  rw [try_take_one_eq, try_take_one_eq]
  simp only [hh, hdes]

/-- Closed form of `poll_next` when the first take yields an error. -/
theorem poll_next_first_error {D K : Type} (ko : KeyOps D K)
    (DA : DeserializerAdapter D K) (r : SimpleDataReader)
    (env1 env2 : TopicCache × Timestamp) (w : Waker) (st : StreamState K)
    {e : DDSError} {rs' : ReadState K}
    (h : try_take_one ko DA r env1.1 env1.2 st.read_state = (.error e, rs')) :
    poll_next ko DA r env1 env2 w st =
      (.ready (some (.error e)), { st with read_state := rs' }) := by
  unfold poll_next
  simp only [h]

/-- Closed form of `poll_next` when the first take yields data. -/
theorem poll_next_first_some {D K : Type} (ko : KeyOps D K)
    (DA : DeserializerAdapter D K) (r : SimpleDataReader)
    (env1 env2 : TopicCache × Timestamp) (w : Waker) (st : StreamState K)
    {d : DeserializedCacheChange D K} {rs' : ReadState K}
    (h : try_take_one ko DA r env1.1 env1.2 st.read_state = (.ok (some d), rs')) :
    poll_next ko DA r env1 env2 w st =
      (.ready (some (.ok d)), { st with read_state := rs' }) := by
  unfold poll_next
  simp only [h]

/-- Closed form of `poll_next` when the first take is empty: the waker is
installed and the second take decides the poll result. -/
theorem poll_next_first_none {D K : Type} (ko : KeyOps D K)
    (DA : DeserializerAdapter D K) (r : SimpleDataReader)
    (env1 env2 : TopicCache × Timestamp) (w : Waker) (st : StreamState K)
    {rs' : ReadState K}
    (h : try_take_one ko DA r env1.1 env1.2 st.read_state = (.ok none, rs')) :
    poll_next ko DA r env1 env2 w st =
      match try_take_one ko DA r env2.1 env2.2 rs' with
      | (.error e, rs'') => (.ready (some (.error e)), ⟨rs'', some w⟩)
      | (.ok (some d), rs'') => (.ready (some (.ok d)), ⟨rs'', some w⟩)
      | (.ok none, rs'') => (.pending, ⟨rs'', some w⟩) := by
  unfold poll_next
  simp only [h, set_waker]

/-- C9: `poll_next` is Ready(Some(Ok d)) or Ready(Some(Err e)) exactly when
an underlying `try_take_one` call yields data or an error — either the first
call, or, after the first returned Ok(None) and the waker was installed via
`set_waker`, the second call; it is Pending iff both calls returned Ok(None),
and then the waker ends up installed; it is never Ready(None); and the
stream is never terminated. -/
theorem c9_stream_poll_protocol {D K : Type} (ko : KeyOps D K)
    (DA : DeserializerAdapter D K) (r : SimpleDataReader)
    (env1 env2 : TopicCache × Timestamp) (w : Waker) (st : StreamState K) :
    (poll_next ko DA r env1 env2 w st).1 ≠ .ready none ∧
    ((poll_next ko DA r env1 env2 w st).1 = .pending ↔
      (try_take_one ko DA r env1.1 env1.2 st.read_state).1 = .ok none ∧
      (try_take_one ko DA r env2.1 env2.2
        (try_take_one ko DA r env1.1 env1.2 st.read_state).2).1 = .ok none) ∧
    ((poll_next ko DA r env1 env2 w st).1 = .pending →
      (poll_next ko DA r env1 env2 w st).2.waker = some w) ∧
    (∀ d, (poll_next ko DA r env1 env2 w st).1 = .ready (some (.ok d)) ↔
      (try_take_one ko DA r env1.1 env1.2 st.read_state).1 = .ok (some d) ∨
      ((try_take_one ko DA r env1.1 env1.2 st.read_state).1 = .ok none ∧
        (try_take_one ko DA r env2.1 env2.2
          (try_take_one ko DA r env1.1 env1.2 st.read_state).2).1 =
            .ok (some d))) ∧
    (∀ e, (poll_next ko DA r env1 env2 w st).1 = .ready (some (.error e)) ↔
      (try_take_one ko DA r env1.1 env1.2 st.read_state).1 = .error e ∨
      ((try_take_one ko DA r env1.1 env1.2 st.read_state).1 = .ok none ∧
        (try_take_one ko DA r env2.1 env2.2
          (try_take_one ko DA r env1.1 env1.2 st.read_state).2).1 =
            .error e)) ∧
    stream_is_terminated = false := by
  cases hr1 : try_take_one ko DA r env1.1 env1.2 st.read_state with
  | mk res1 rs1 =>
    cases res1 with
    | error e1 =>
      rw [poll_next_first_error ko DA r env1 env2 w st hr1]
      refine ⟨by simp, by simp, by simp, fun d => by simp, fun e => ?_, rfl⟩
      simp [eq_comm]
    | ok o1 =>
      cases o1 with
      | some d1 =>
        rw [poll_next_first_some ko DA r env1 env2 w st hr1]
        refine ⟨by simp, by simp, by simp, fun d => ?_, fun e => by simp, rfl⟩
        simp [eq_comm]
      | none =>
        rw [poll_next_first_none ko DA r env1 env2 w st hr1]
        dsimp only
        cases hr2 : try_take_one ko DA r env2.1 env2.2 rs1 with
        | mk res2 rs2 =>
          cases res2 with
          | error e2 =>
            refine ⟨by simp, by simp, by simp, fun d => by simp,
              fun e => by simp [eq_comm], rfl⟩
          | ok o2 =>
            cases o2 with
            | some d2 =>
              refine ⟨by simp, by simp, by simp, fun d => by simp [eq_comm],
                fun e => by simp, rfl⟩
            | none =>
              refine ⟨by simp, by simp, by simp, fun d => by simp,
                fun e => by simp, rfl⟩

/-- C10: when the next undelivered change of the underlying keyed reader
decodes to a Dispose sample, the no-key `try_take_one` returns `Ok(None)`
while the read pointers have advanced past that change (the writer's
last-read sequence number now equals the consumed change's) — so `Ok(None)`
from the no-key reader does not imply the cache held no undelivered change,
and a value change queued behind the dispose is not returned by that call. -/
theorem c10_no_key_none_ambiguity {D : Type} (DA : DeserializerAdapter D Unit)
    (r : SimpleDataReader) (tc : TopicCache) (now : Timestamp)
    (rs : ReadState Unit) {dcc : DeserializedCacheChange D Unit} {k : Unit}
    (h : (try_take_one (noKeyOps D) DA r tc now rs).1 = .ok (some dcc))
    (hdisp : dcc.sample = .dispose k) :
    (noKey_try_take_one DA r tc now rs).1 = .ok none ∧
    (noKey_try_take_one DA r tc now rs).2 =
      (try_take_one (noKeyOps D) DA r tc now rs).2 ∧
    mapLookup (noKey_try_take_one DA r tc now rs).2.last_read_sn
        dcc.writer_guid = some dcc.sequence_number ∧
    (try_take_undecoded r.qos_policy.is_reliable tc rs.latest_instant
      rs.last_read_sn now).head? ≠ none := by
  obtain ⟨ts, cc, m, hh, hd, hpost, hri, hw, hsn⟩ :=
    try_take_one_ok_some_inv (noKeyOps D) DA r tc now rs h
  obtain ⟨ri, wg, sn, smp⟩ := dcc
  dsimp only at hdisp hri hw hsn ⊢
  subst hdisp
  cases hp : try_take_one (noKeyOps D) DA r tc now rs with
  | mk res rs' =>
    rw [hp] at h hpost
    dsimp only at h hpost
    subst h
    have hnk : noKey_try_take_one DA r tc now rs = (.ok none, rs') := by
      unfold noKey_try_take_one
      rw [hp]
      rfl
    refine ⟨by rw [hnk], by rw [hnk], ?_,
      by rw [hh]; exact fun hc => Option.noConfusion hc⟩
    rw [hnk, hpost]
    dsimp only
    rw [hw, hsn, mapLookup_mapInsert]
    simp

/-- Along any run, the hash → key map holds, at hash `h0`, the most recently
recorded key with that hash, falling back to the initial map. -/
theorem run_hash_map_char {D K : Type} (ko : KeyOps D K)
    (DA : DeserializerAdapter D K) (r : SimpleDataReader) :
    ∀ (envs : List Env) (rs : ReadState K) (h0 : KeyHash),
      mapLookup (runFinal ko DA r rs envs).hash_to_key_map h0 =
        match latestKeyWithHash ko (recordedKeys ko (run ko DA r rs envs)) h0 with
        | some k => some k
        | none => mapLookup rs.hash_to_key_map h0 := by
  intro envs
  induction envs with
  | nil => intro rs h0; rfl
  | cons e es ih =>
    intro rs h0
    rw [runFinal_cons, run_cons, ih]
    have hstep := try_take_one_hash_map_step ko DA r e.topic_cache e.now rs
    cases hsk : stepRecordedKey ko
        ⟨(try_take_undecoded r.qos_policy.is_reliable e.topic_cache
            rs.latest_instant rs.last_read_sn e.now).head?,
         (try_take_one ko DA r e.topic_cache e.now rs).1,
         (try_take_one ko DA r e.topic_cache e.now rs).2⟩ with
    | none =>
      rw [hsk] at hstep
      simp only [recordedKeys, List.filterMap_cons, hsk, hstep]
    | some k0 =>
      rw [hsk] at hstep
      simp only [recordedKeys, List.filterMap_cons, hsk]
      rw [hstep, mapLookup_mapInsert]
      unfold latestKeyWithHash
      rw [List.reverse_cons, List.find?_append]
      cases hf : ((run ko DA r (try_take_one ko DA r e.topic_cache e.now rs).2
          es).filterMap (stepRecordedKey ko)).reverse.find?
            (fun k => ko.hash_key k == h0) with
      | some k1 => simp [Option.or]
      | none =>
        simp only [Option.none_or]
        by_cases hph : h0 = ko.hash_key k0
        · have : (ko.hash_key k0 == h0) = true := by simp [hph]
          simp [List.find?, this, hph]
        · have : (ko.hash_key k0 == h0) = false := by
            simp [beq_iff_eq]
            exact fun hc => hph hc.symm
          simp [List.find?, this, hph]

/-- C3: for a dispose-by-hash change at the head of the selected range,
`try_take_one` delivers `Dispose(k)` iff the reader's `hash_to_key_map` maps
the hash to `k` (a key is never synthesized from a hash), and on a miss it
fails with the "Tried to dispose with unknown key hash" error carrying topic
and type; moreover, starting from a fresh reader, the map holds `h ↦ k` iff
`k` is the most recent key of a successfully delivered `Data` or
`DisposeByKey` change whose `hash_key` equals `h`. -/
theorem c3_dispose_by_hash {D K : Type} (ko : KeyOps D K)
    (DA : DeserializerAdapter D K) (r : SimpleDataReader) (tc : TopicCache)
    (now : Timestamp) (rs : ReadState K) {ts : Timestamp} {cc : CacheChange}
    {kh : KeyHash}
    (hh : (try_take_undecoded r.qos_policy.is_reliable tc rs.latest_instant
      rs.last_read_sn now).head? = some (ts, cc))
    (hcc : cc.data_value = .disposeByKeyHash kh) :
    (∀ k, mapLookup rs.hash_to_key_map kh = some k →
      try_take_one ko DA r tc now rs =
        (.ok (some (DeserializedCacheChange.mk' ts cc (Sample.dispose k))),
         { latest_instant := max rs.latest_instant ts,
           last_read_sn :=
             mapInsert rs.last_read_sn cc.writer_guid cc.sequence_number,
           hash_to_key_map := rs.hash_to_key_map })) ∧
    (∀ dcc, (try_take_one ko DA r tc now rs).1 = .ok (some dcc) →
      ∃ k, dcc.sample = Sample.dispose k ∧
        mapLookup rs.hash_to_key_map kh = some k) ∧
    (mapLookup rs.hash_to_key_map kh = none →
      try_take_one ko DA r tc now rs =
        (.error (DDSError.serialization_error
          ("Tried to dispose with unknown key hash: " ++ toString kh ++
            " Topic = " ++ r.topic_name ++ ", Type = " ++ r.topic_type)),
         rs)) ∧
    (∀ (envs : List Env) (h0 : KeyHash),
      mapLookup (runFinal ko DA r (ReadState.new K) envs).hash_to_key_map h0 =
        latestKeyWithHash ko
          (recordedKeys ko (run ko DA r (ReadState.new K) envs)) h0) := by
  refine ⟨?_, ?_, ?_, ?_⟩
  · intro k hk
    have hd : deserialize ko DA ts cc rs.hash_to_key_map =
        .ok (DeserializedCacheChange.mk' ts cc (Sample.dispose k),
             rs.hash_to_key_map) :=
      deserialize_inner_hash_hit ko DA.key_from_bytes rs.hash_to_key_map ts
        DA.supported_encodings DA.from_bytes hcc hk
    rw [try_take_one_of_head_ok ko DA r tc now rs hh hd]
    simp [DeserializedCacheChange.mk']
  · intro dcc hres
    obtain ⟨ts', cc', m, hh', hd, _, _, _, _⟩ :=
      try_take_one_ok_some_inv ko DA r tc now rs hres
    rw [hh] at hh'
    obtain ⟨h1, h2⟩ : ts' = ts ∧ cc' = cc := by
      have h3 := hh'.symm
      simp only [Option.some.injEq, Prod.mk.injEq] at h3
      exact h3
    rw [h1, h2] at hd
    cases hk : mapLookup rs.hash_to_key_map kh with
    | some k =>
      have hd2 : deserialize ko DA ts cc rs.hash_to_key_map =
          .ok (DeserializedCacheChange.mk' ts cc (Sample.dispose k),
               rs.hash_to_key_map) :=
        deserialize_inner_hash_hit ko DA.key_from_bytes rs.hash_to_key_map ts
          DA.supported_encodings DA.from_bytes hcc hk
      rw [hd2] at hd
      simp only [Except.ok.injEq, Prod.mk.injEq] at hd
      refine ⟨k, ?_, rfl⟩
      rw [← hd.1]
      rfl
    | none =>
      have hd2 : deserialize ko DA ts cc rs.hash_to_key_map =
          .error ("Tried to dispose with unknown key hash: " ++ toString kh) :=
        deserialize_inner_hash_miss ko DA.key_from_bytes rs.hash_to_key_map ts
          DA.supported_encodings DA.from_bytes hcc hk
      rw [hd2] at hd
      exact Except.noConfusion hd
  · intro hk
    have hd : deserialize ko DA ts cc rs.hash_to_key_map =
        .error ("Tried to dispose with unknown key hash: " ++ toString kh) :=
      deserialize_inner_hash_miss ko DA.key_from_bytes rs.hash_to_key_map ts
        DA.supported_encodings DA.from_bytes hcc hk
    rw [try_take_one_of_head_error ko DA r tc now rs hh hd]
  · intro envs h0
    rw [run_hash_map_char]
    cases latestKeyWithHash ko
        (recordedKeys ko (run ko DA r (ReadState.new K) envs)) h0 with
    | some k => rfl
    | none => rfl

theorem deliveries_cons {D K : Type} (s : RunStep D K) (tr : List (RunStep D K)) :
    deliveries (s :: tr) =
      match s.result with
      | .ok (some d) => d :: deliveries tr
      | _ => deliveries tr := by
  unfold deliveries
  rw [List.filterMap_cons]
  cases s.result with
  | error e => rfl
  | ok o =>
    cases o with
    | none => rfl
    | some d => rfl

/-- C4: on a best-effort reader, assuming the cache's best-effort range query
returns only entries with timestamp strictly above the given lower bound, the
timestamps of successive successful deliveries are strictly increasing (in
particular non-decreasing), and no change with timestamp at or below the
read pointer `latest_instant` (which bounds every previously delivered
timestamp) is ever delivered. -/
theorem c4_best_effort_monotone {D K : Type} (ko : KeyOps D K)
    (DA : DeserializerAdapter D K) (r : SimpleDataReader) (envs : List Env)
    (rs : ReadState K) (hmode : r.qos_policy.is_reliable = false)
    (hq : ∀ e ∈ envs, ∀ lo hi x,
      x ∈ e.topic_cache.get_changes_in_range_best_effort lo hi → lo < x.1) :
    List.Pairwise (fun a b => a.receive_instant < b.receive_instant)
      (deliveries (run ko DA r rs envs)) ∧
    ∀ d ∈ deliveries (run ko DA r rs envs),
      rs.latest_instant < d.receive_instant := by
  induction envs generalizing rs with
  | nil => exact ⟨List.Pairwise.nil, by intro d hd; cases hd⟩
  | cons e es ih =>
    have hqe := hq e (List.mem_cons_self e es)
    have hqt : ∀ e' ∈ es, ∀ lo hi x,
        x ∈ e'.topic_cache.get_changes_in_range_best_effort lo hi → lo < x.1 :=
      fun e' he' => hq e' (List.mem_cons_of_mem e he')
    rw [run_cons]
    rw [deliveries_cons]
    cases hres : (try_take_one ko DA r e.topic_cache e.now rs).1 with
    | error e0 =>
      have hst := try_take_one_error_inv ko DA r e.topic_cache e.now rs hres
      rw [hst]
      exact ih rs hqt
    | ok o =>
      cases o with
      | none =>
        have hst :=
          (try_take_one_ok_none_inv ko DA r e.topic_cache e.now rs hres).1
        rw [hst]
        exact ih rs hqt
      | some d0 =>
        obtain ⟨ts, cc, m, hh, hd, hpost, hri, hw, hsn⟩ :=
          try_take_one_ok_some_inv ko DA r e.topic_cache e.now rs hres
        rw [try_take_undecoded, hmode] at hh
        simp only [Bool.false_eq_true, if_false] at hh
        have hmem : (ts, cc) ∈
            e.topic_cache.get_changes_in_range_best_effort rs.latest_instant
              e.now := List.mem_of_mem_head? hh
        have hts : rs.latest_instant < ts :=
          hqe rs.latest_instant e.now (ts, cc) hmem
        obtain ⟨ihp, ihb⟩ :=
          ih (try_take_one ko DA r e.topic_cache e.now rs).2 hqt
        have hpostlat :
            ts ≤ (try_take_one ko DA r e.topic_cache e.now rs).2.latest_instant := by
          rw [hpost]
          exact le_max_right _ _
        constructor
        · refine List.Pairwise.cons ?_ ihp
          intro d' hd'
          have := ihb d' hd'
          rw [hri]
          exact lt_of_le_of_lt hpostlat this
        · intro d hdm
          rcases List.mem_cons.mp hdm with hdm | hdm
          · subst hdm
            rw [hri]
            exact hts
          · have h1 := ihb d hdm
            have h2 : rs.latest_instant ≤
                (try_take_one ko DA r e.topic_cache e.now rs).2.latest_instant :=
              try_take_one_latest_mono ko DA r e.topic_cache e.now rs
            exact lt_of_le_of_lt h2 h1

/-- C5: on a reliable reader, assuming the cache's reliable range query
returns only entries whose sequence number strictly exceeds the last-read
pointer of their writer, successive successful deliveries from any single
writer carry strictly increasing sequence numbers (and every delivery
exceeds the writer's initial read pointer). -/
theorem c5_reliable_monotone {D K : Type} (ko : KeyOps D K)
    (DA : DeserializerAdapter D K) (r : SimpleDataReader) (envs : List Env)
    (rs : ReadState K) (hmode : r.qos_policy.is_reliable = true)
    (hq : ∀ e ∈ envs, ∀ lrs x,
      x ∈ e.topic_cache.get_changes_in_range_reliable lrs →
      ∀ s, mapLookup lrs x.2.writer_guid = some s →
        s < x.2.sequence_number) :
    List.Pairwise (fun a b => a.writer_guid = b.writer_guid →
        a.sequence_number < b.sequence_number)
      (deliveries (run ko DA r rs envs)) ∧
    ∀ d ∈ deliveries (run ko DA r rs envs), ∀ s,
      mapLookup rs.last_read_sn d.writer_guid = some s →
        s < d.sequence_number := by
  induction envs generalizing rs with
  | nil => exact ⟨List.Pairwise.nil, by intro d hd; cases hd⟩
  | cons e es ih =>
    have hqe := hq e (List.mem_cons_self e es)
    have hqt : ∀ e' ∈ es, ∀ lrs x,
        x ∈ e'.topic_cache.get_changes_in_range_reliable lrs →
        ∀ s, mapLookup lrs x.2.writer_guid = some s →
          s < x.2.sequence_number :=
      fun e' he' => hq e' (List.mem_cons_of_mem e he')
    rw [run_cons, deliveries_cons]
    cases hres : (try_take_one ko DA r e.topic_cache e.now rs).1 with
    | error e0 =>
      have hst := try_take_one_error_inv ko DA r e.topic_cache e.now rs hres
      rw [hst]
      exact ih rs hqt
    | ok o =>
      cases o with
      | none =>
        have hst :=
          (try_take_one_ok_none_inv ko DA r e.topic_cache e.now rs hres).1
        rw [hst]
        exact ih rs hqt
      | some d0 =>
        obtain ⟨ts, cc, m, hh, hd, hpost, hri, hw, hsn⟩ :=
          try_take_one_ok_some_inv ko DA r e.topic_cache e.now rs hres
        rw [try_take_undecoded, hmode] at hh
        simp only [if_true] at hh
        have hmem : (ts, cc) ∈
            e.topic_cache.get_changes_in_range_reliable rs.last_read_sn :=
          List.mem_of_mem_head? hh
        have hgt : ∀ s, mapLookup rs.last_read_sn cc.writer_guid = some s →
            s < cc.sequence_number :=
          fun s hs => hqe rs.last_read_sn (ts, cc) hmem s hs
        obtain ⟨ihp, ihb⟩ :=
          ih (try_take_one ko DA r e.topic_cache e.now rs).2 hqt
        have hpostlook : mapLookup
            (try_take_one ko DA r e.topic_cache e.now rs).2.last_read_sn
            cc.writer_guid = some cc.sequence_number := by
          rw [hpost]
          dsimp only
          rw [mapLookup_mapInsert]
          simp
        constructor
        · refine List.Pairwise.cons ?_ ihp
          intro d' hd' heq
          have hlook : mapLookup
              (try_take_one ko DA r e.topic_cache e.now rs).2.last_read_sn
              d'.writer_guid = some cc.sequence_number := by
            rw [← heq, hw]
            exact hpostlook
          have := ihb d' hd' cc.sequence_number hlook
          rw [hsn]
          exact this
        · intro d hdm s hs
          rcases List.mem_cons.mp hdm with hdm | hdm
          · subst hdm
            rw [hsn]
            rw [hw] at hs
            exact hgt s hs
          · by_cases hwc : d.writer_guid = cc.writer_guid
            · have hlook : mapLookup
                  (try_take_one ko DA r e.topic_cache e.now rs).2.last_read_sn
                  d.writer_guid = some cc.sequence_number := by
                rw [hwc]
                exact hpostlook
              have h1 := ihb d hdm cc.sequence_number hlook
              have h2 : s < cc.sequence_number := by
                rw [hwc] at hs
                exact hgt s hs
              exact lt_trans h2 h1
            · have hlook : mapLookup
                  (try_take_one ko DA r e.topic_cache e.now rs).2.last_read_sn
                  d.writer_guid = some s := by
                rw [hpost]
                dsimp only
                rw [mapLookup_mapInsert]
                simp only [hwc, if_false]
                exact hs
              exact ihb d hdm s hlook

/-- Every delivered timestamp is bounded by the final `latest_instant`,
whatever the reliability mode and the cache behavior. -/
theorem delivered_le_final_latest {D K : Type} (ko : KeyOps D K)
    (DA : DeserializerAdapter D K) (r : SimpleDataReader) :
    ∀ (envs : List Env) (rs : ReadState K),
      ∀ d ∈ deliveries (run ko DA r rs envs),
        d.receive_instant ≤ (runFinal ko DA r rs envs).latest_instant := by
  intro envs
  induction envs with
  | nil => intro rs d hd; cases hd
  | cons e es ih =>
    intro rs d hd
    rw [run_cons, deliveries_cons] at hd
    rw [runFinal_cons]
    cases hres : (try_take_one ko DA r e.topic_cache e.now rs).1 with
    | error e0 =>
      rw [hres] at hd
      exact ih _ d hd
    | ok o =>
      cases o with
      | none =>
        rw [hres] at hd
        exact ih _ d hd
      | some d0 =>
        rw [hres] at hd
        rcases List.mem_cons.mp hd with hd | hd
        · subst hd
          obtain ⟨ts, cc, m, hh, hdes, hpost, hri, hw, hsn⟩ :=
            try_take_one_ok_some_inv ko DA r e.topic_cache e.now rs hres
          have h1 : d.receive_instant ≤
              (try_take_one ko DA r e.topic_cache e.now rs).2.latest_instant := by
            rw [hpost, hri]
            exact le_max_right _ _
          exact le_trans h1 (runFinal_latest_mono ko DA r _ es)
        · exact ih _ d hd

/-- In reliable mode, under the reliable-query contract, the per-writer read
pointer never decreases along a run. -/
theorem rel_pointer_mono {D K : Type} (ko : KeyOps D K)
    (DA : DeserializerAdapter D K) (r : SimpleDataReader)
    (hmode : r.qos_policy.is_reliable = true) :
    ∀ (envs : List Env) (rs : ReadState K),
      (∀ e ∈ envs, ∀ lrs x,
        x ∈ e.topic_cache.get_changes_in_range_reliable lrs →
        ∀ s, mapLookup lrs x.2.writer_guid = some s →
          s < x.2.sequence_number) →
      ∀ w s, mapLookup rs.last_read_sn w = some s →
        ∃ s', mapLookup (runFinal ko DA r rs envs).last_read_sn w = some s' ∧
          s ≤ s' := by
  intro envs
  induction envs with
  | nil => intro rs _ w s hs; exact ⟨s, hs, le_refl s⟩
  | cons e es ih =>
    intro rs hq w s hs
    have hqe := hq e (List.mem_cons_self e es)
    have hqt : ∀ e' ∈ es, ∀ lrs x,
        x ∈ e'.topic_cache.get_changes_in_range_reliable lrs →
        ∀ s, mapLookup lrs x.2.writer_guid = some s →
          s < x.2.sequence_number :=
      fun e' he' => hq e' (List.mem_cons_of_mem e he')
    rw [runFinal_cons]
    cases hres : (try_take_one ko DA r e.topic_cache e.now rs).1 with
    | error e0 =>
      rw [try_take_one_error_inv ko DA r e.topic_cache e.now rs hres]
      exact ih rs hqt w s hs
    | ok o =>
      cases o with
      | none =>
        rw [(try_take_one_ok_none_inv ko DA r e.topic_cache e.now rs hres).1]
        exact ih rs hqt w s hs
      | some d0 =>
        obtain ⟨ts, cc, m, hh, hdes, hpost, hri, hw, hsn⟩ :=
          try_take_one_ok_some_inv ko DA r e.topic_cache e.now rs hres
        rw [try_take_undecoded, hmode] at hh
        simp only [if_true] at hh
        have hmem : (ts, cc) ∈
            e.topic_cache.get_changes_in_range_reliable rs.last_read_sn :=
          List.mem_of_mem_head? hh
        by_cases hwc : w = cc.writer_guid
        · have hlt : s < cc.sequence_number :=
            hqe rs.last_read_sn (ts, cc) hmem s (by rw [← hwc]; exact hs)
          have hpostlook : mapLookup
              (try_take_one ko DA r e.topic_cache e.now rs).2.last_read_sn w =
                some cc.sequence_number := by
            rw [hpost]
            dsimp only
            rw [mapLookup_mapInsert]
            simp [hwc]
          obtain ⟨s', h1, h2⟩ := ih _ hqt w cc.sequence_number hpostlook
          exact ⟨s', h1, le_trans (le_of_lt hlt) h2⟩
        · have hpostlook : mapLookup
              (try_take_one ko DA r e.topic_cache e.now rs).2.last_read_sn w =
                some s := by
            rw [hpost]
            dsimp only
            rw [mapLookup_mapInsert]
            simp only [hwc, if_false]
            exact hs
          exact ih _ hqt w s hpostlook

/-- In best-effort mode, under the best-effort query contract and per-writer
monotone sequence numbers in the backing pool, a read pointer that dominates
every still-deliverable pool entry of its writer never decreases. -/
theorem be_pointer_mono {D K : Type} (ko : KeyOps D K)
    (DA : DeserializerAdapter D K) (r : SimpleDataReader)
    (pool : List (Timestamp × CacheChange))
    (hmode : r.qos_policy.is_reliable = false)
    (hpool : ∀ x ∈ pool, ∀ y ∈ pool,
      x.2.writer_guid = y.2.writer_guid → x.1 < y.1 →
        x.2.sequence_number < y.2.sequence_number) :
    ∀ (envs : List Env) (rs : ReadState K),
      (∀ e ∈ envs, ∀ lo hi x,
        x ∈ e.topic_cache.get_changes_in_range_best_effort lo hi →
          x ∈ pool ∧ lo < x.1) →
      ∀ w s, mapLookup rs.last_read_sn w = some s →
        (∀ x ∈ pool, x.2.writer_guid = w → rs.latest_instant < x.1 →
          s < x.2.sequence_number) →
        ∃ s', mapLookup (runFinal ko DA r rs envs).last_read_sn w = some s' ∧
          s ≤ s' := by
  intro envs
  induction envs with
  | nil => intro rs _ w s hs _; exact ⟨s, hs, le_refl s⟩
  | cons e es ih =>
    intro rs hq w s hs hguard
    have hqe := hq e (List.mem_cons_self e es)
    have hqt : ∀ e' ∈ es, ∀ lo hi x,
        x ∈ e'.topic_cache.get_changes_in_range_best_effort lo hi →
          x ∈ pool ∧ lo < x.1 :=
      fun e' he' => hq e' (List.mem_cons_of_mem e he')
    rw [runFinal_cons]
    cases hres : (try_take_one ko DA r e.topic_cache e.now rs).1 with
    | error e0 =>
      rw [try_take_one_error_inv ko DA r e.topic_cache e.now rs hres]
      exact ih rs hqt w s hs hguard
    | ok o =>
      cases o with
      | none =>
        rw [(try_take_one_ok_none_inv ko DA r e.topic_cache e.now rs hres).1]
        exact ih rs hqt w s hs hguard
      | some d0 =>
        obtain ⟨ts, cc, m, hh, hdes, hpost, hri, hw, hsn⟩ :=
          try_take_one_ok_some_inv ko DA r e.topic_cache e.now rs hres
        rw [try_take_undecoded, hmode] at hh
        simp only [Bool.false_eq_true, if_false] at hh
        obtain ⟨hmempool, hlo⟩ :=
          hqe rs.latest_instant e.now (ts, cc) (List.mem_of_mem_head? hh)
        have hpostlat :
            (try_take_one ko DA r e.topic_cache e.now rs).2.latest_instant =
              max rs.latest_instant ts := by rw [hpost]
        by_cases hwc : w = cc.writer_guid
        · have hlt : s < cc.sequence_number :=
            hguard (ts, cc) hmempool (by rw [hwc]) hlo
          have hpostlook : mapLookup
              (try_take_one ko DA r e.topic_cache e.now rs).2.last_read_sn w =
                some cc.sequence_number := by
            rw [hpost]
            dsimp only
            rw [mapLookup_mapInsert]
            simp [hwc]
          have hguard' : ∀ x ∈ pool, x.2.writer_guid = w →
              (try_take_one ko DA r e.topic_cache e.now rs).2.latest_instant <
                x.1 → cc.sequence_number < x.2.sequence_number := by
            intro x hx hxw hxl
            rw [hpostlat] at hxl
            have hts : ts < x.1 := lt_of_le_of_lt (le_max_right _ _) hxl
            exact hpool (ts, cc) hmempool x hx (by rw [hxw, hwc]) hts
          obtain ⟨s', h1, h2⟩ := ih _ hqt w cc.sequence_number hpostlook hguard'
          exact ⟨s', h1, le_trans (le_of_lt hlt) h2⟩
        · have hpostlook : mapLookup
              (try_take_one ko DA r e.topic_cache e.now rs).2.last_read_sn w =
                some s := by
            rw [hpost]
            dsimp only
            rw [mapLookup_mapInsert]
            simp only [hwc, if_false]
            exact hs
          have hguard' : ∀ x ∈ pool, x.2.writer_guid = w →
              (try_take_one ko DA r e.topic_cache e.now rs).2.latest_instant <
                x.1 → s < x.2.sequence_number := by
            intro x hx hxw hxl
            rw [hpostlat] at hxl
            exact hguard x hx hxw (lt_of_le_of_lt (le_max_left _ _) hxl)
          exact ih _ hqt w s hpostlook hguard'

/-- C1: after a successful delivery of a change with timestamp `t` from
writer `w` with sequence number `s`, the read pointers satisfy
`latest_instant ≥ t` and `last_read_sn[w] ≥ s`, persistently: at the end of
any run of successful deliveries (in either reliability mode), under the
TopicCache contract — best-effort queries return pool entries above the
lower bound, reliable queries return entries above the writer's pointer, and
pool sequence numbers grow with time per writer — every delivered change is
so dominated by the final read state. -/
theorem c1_read_state_invariant {D K : Type} (ko : KeyOps D K)
    (DA : DeserializerAdapter D K) (r : SimpleDataReader) (envs : List Env)
    (rs : ReadState K) (pool : List (Timestamp × CacheChange))
    (hpool : ∀ x ∈ pool, ∀ y ∈ pool,
      x.2.writer_guid = y.2.writer_guid → x.1 < y.1 →
        x.2.sequence_number < y.2.sequence_number)
    (hbe : ∀ e ∈ envs, ∀ lo hi x,
      x ∈ e.topic_cache.get_changes_in_range_best_effort lo hi →
        x ∈ pool ∧ lo < x.1)
    (hrel : ∀ e ∈ envs, ∀ lrs x,
      x ∈ e.topic_cache.get_changes_in_range_reliable lrs →
      ∀ s, mapLookup lrs x.2.writer_guid = some s →
        s < x.2.sequence_number) :
    ∀ d ∈ deliveries (run ko DA r rs envs),
      d.receive_instant ≤ (runFinal ko DA r rs envs).latest_instant ∧
      ∃ s, mapLookup (runFinal ko DA r rs envs).last_read_sn d.writer_guid =
        some s ∧ d.sequence_number ≤ s := by
  have haux : ∀ (envs' : List Env) (rs' : ReadState K),
      (∀ e ∈ envs', ∀ lo hi x,
        x ∈ e.topic_cache.get_changes_in_range_best_effort lo hi →
          x ∈ pool ∧ lo < x.1) →
      (∀ e ∈ envs', ∀ lrs x,
        x ∈ e.topic_cache.get_changes_in_range_reliable lrs →
        ∀ s, mapLookup lrs x.2.writer_guid = some s →
          s < x.2.sequence_number) →
      ∀ d ∈ deliveries (run ko DA r rs' envs'),
        ∃ s, mapLookup (runFinal ko DA r rs' envs').last_read_sn
          d.writer_guid = some s ∧ d.sequence_number ≤ s := by
    intro envs'
    induction envs' with
    | nil => intro rs' _ _ d hd; cases hd
    | cons e es ih =>
      intro rs' hbe' hrel' d hd
      have hbet : ∀ e' ∈ es, ∀ lo hi x,
          x ∈ e'.topic_cache.get_changes_in_range_best_effort lo hi →
            x ∈ pool ∧ lo < x.1 :=
        fun e' he' => hbe' e' (List.mem_cons_of_mem e he')
      have hrelt : ∀ e' ∈ es, ∀ lrs x,
          x ∈ e'.topic_cache.get_changes_in_range_reliable lrs →
          ∀ s, mapLookup lrs x.2.writer_guid = some s →
            s < x.2.sequence_number :=
        fun e' he' => hrel' e' (List.mem_cons_of_mem e he')
      rw [run_cons, deliveries_cons] at hd
      rw [runFinal_cons]
      cases hres : (try_take_one ko DA r e.topic_cache e.now rs').1 with
      | error e0 =>
        rw [hres] at hd
        have hst := try_take_one_error_inv ko DA r e.topic_cache e.now rs' hres
        rw [hst] at hd
        rw [hst]
        exact ih rs' hbet hrelt d hd
      | ok o =>
        cases o with
        | none =>
          rw [hres] at hd
          have hst :=
            (try_take_one_ok_none_inv ko DA r e.topic_cache e.now rs' hres).1
          rw [hst] at hd
          rw [hst]
          exact ih rs' hbet hrelt d hd
        | some d0 =>
          rw [hres] at hd
          obtain ⟨ts, cc, m, hh, hdes, hpost, hri, hw, hsn⟩ :=
            try_take_one_ok_some_inv ko DA r e.topic_cache e.now rs' hres
          rcases List.mem_cons.mp hd with hd | hd
          · subst hd
            have hpostlook : mapLookup
                (try_take_one ko DA r e.topic_cache e.now rs').2.last_read_sn
                d.writer_guid = some cc.sequence_number := by
              rw [hpost]
              dsimp only
              rw [hw, mapLookup_mapInsert]
              simp
            cases hmode : r.qos_policy.is_reliable with
            | true =>
              obtain ⟨s', h1, h2⟩ := rel_pointer_mono ko DA r hmode es _
                hrelt d.writer_guid cc.sequence_number hpostlook
              exact ⟨s', h1, by rw [hsn]; exact h2⟩
            | false =>
              rw [try_take_undecoded, hmode] at hh
              simp only [Bool.false_eq_true, if_false] at hh
              obtain ⟨hmempool, hlo⟩ := hbe' e (List.mem_cons_self e es)
                rs'.latest_instant e.now (ts, cc) (List.mem_of_mem_head? hh)
              have hpostlat :
                  (try_take_one ko DA r e.topic_cache e.now rs').2.latest_instant
                    = max rs'.latest_instant ts := by rw [hpost]
              have hguard : ∀ x ∈ pool, x.2.writer_guid = d.writer_guid →
                  (try_take_one ko DA r e.topic_cache e.now rs').2.latest_instant
                    < x.1 → cc.sequence_number < x.2.sequence_number := by
                intro x hx hxw hxl
                rw [hpostlat] at hxl
                have hts : ts < x.1 := lt_of_le_of_lt (le_max_right _ _) hxl
                exact hpool (ts, cc) hmempool x hx (by rw [hxw, hw]) hts
              obtain ⟨s', h1, h2⟩ := be_pointer_mono ko DA r pool hmode hpool
                es _ hbet d.writer_guid cc.sequence_number hpostlook hguard
              exact ⟨s', h1, by rw [hsn]; exact h2⟩
          · exact ih _ hbet hrelt d hd
  intro d hd
  exact ⟨delivered_le_final_latest ko DA r envs rs d hd,
    haux envs rs hbe hrel d hd⟩

/-! ## Concrete witnesses -/

/-- C1 witness: one reliable delivery dominates the final read pointers. -/
theorem c1_read_state_invariant_witness :
    (5 : Timestamp) ≤
      (runFinal exKeyOps exAdapter exReaderRel (ReadState.new Nat)
        [⟨listCache [(5, ⟨1, 1, DDSData.data ⟨1, [4]⟩⟩)], 20⟩]).latest_instant ∧
    ∃ s, mapLookup
        (runFinal exKeyOps exAdapter exReaderRel (ReadState.new Nat)
          [⟨listCache [(5, ⟨1, 1, DDSData.data ⟨1, [4]⟩⟩)], 20⟩]).last_read_sn
        1 = some s ∧ (1 : SequenceNumber) ≤ s :=
  c1_read_state_invariant exKeyOps exAdapter exReaderRel
    [⟨listCache [(5, ⟨1, 1, DDSData.data ⟨1, [4]⟩⟩)], 20⟩]
    (ReadState.new Nat) [(5, ⟨1, 1, DDSData.data ⟨1, [4]⟩⟩)]
    (by decide)
    (by
      intro e he lo hi x hx
      rcases List.mem_cons.mp he with h | h
      · subst h; exact listCache_best_effort_mem hx
      · cases h)
    (by
      intro e he lrs x hx
      rcases List.mem_cons.mp he with h | h
      · subst h; exact fun s hs => (listCache_reliable_gt hx).2 s hs
      · cases h)
    ⟨5, 1, 1, Sample.value 4⟩ (by decide)

/-- C2 witness: a dispose-by-hash with unseen hash errors and leaves the
state unchanged. -/
theorem c2_error_atomicity_witness :
    (try_take_one exKeyOps exAdapter exReaderRel
        (listCache [(10, ⟨1, 1, DDSData.disposeByKeyHash 5⟩)]) 20
        (ReadState.new Nat)).2 = ReadState.new Nat ∧
    try_take_one exKeyOps exAdapter exReaderRel
        (listCache [(10, ⟨1, 1, DDSData.disposeByKeyHash 5⟩)]) 20
        (try_take_one exKeyOps exAdapter exReaderRel
          (listCache [(10, ⟨1, 1, DDSData.disposeByKeyHash 5⟩)]) 20
          (ReadState.new Nat)).2 =
      try_take_one exKeyOps exAdapter exReaderRel
        (listCache [(10, ⟨1, 1, DDSData.disposeByKeyHash 5⟩)]) 20
        (ReadState.new Nat) :=
  (c2_error_atomicity exKeyOps exAdapter exSeedAdapter 0 exReaderRel
      (listCache [(10, ⟨1, 1, DDSData.disposeByKeyHash 5⟩)]) 20
      (ReadState.new Nat)).1
    (DDSError.serialization_error
      "Tried to dispose with unknown key hash: 5 Topic = square, Type = Nat")
    rfl

/-- C3 witness: a dispose-by-hash with a known hash delivers the mapped key. -/
theorem c3_dispose_by_hash_witness :
    try_take_one exKeyOps exAdapter exReaderRel
        (listCache [(10, ⟨1, 1, DDSData.disposeByKeyHash 107⟩)]) 20
        ⟨0, [], [(107, 7)]⟩ =
      (.ok (some (DeserializedCacheChange.mk' 10
          ⟨1, 1, DDSData.disposeByKeyHash 107⟩ (Sample.dispose 7))),
       { latest_instant := max 0 10,
         last_read_sn := mapInsert [] 1 1,
         hash_to_key_map := [(107, 7)] }) :=
  (c3_dispose_by_hash exKeyOps exAdapter exReaderRel
      (listCache [(10, ⟨1, 1, DDSData.disposeByKeyHash 107⟩)]) 20
      ⟨0, [], [(107, 7)]⟩ rfl rfl).1 7 rfl

/-- C4 witness: a late change is skipped and delivered timestamps increase. -/
theorem c4_best_effort_monotone_witness :
    List.Pairwise (fun a b => a.receive_instant < b.receive_instant)
      (deliveries (run exKeyOps exAdapter exReaderBE (ReadState.new Nat)
        [⟨listCache [(5, ⟨1, 1, DDSData.data ⟨1, [4]⟩⟩)], 20⟩,
         ⟨listCache [(3, ⟨1, 2, DDSData.data ⟨1, [5]⟩⟩),
                     (7, ⟨1, 3, DDSData.data ⟨1, [6]⟩⟩)], 30⟩])) ∧
    ∀ d ∈ deliveries (run exKeyOps exAdapter exReaderBE (ReadState.new Nat)
        [⟨listCache [(5, ⟨1, 1, DDSData.data ⟨1, [4]⟩⟩)], 20⟩,
         ⟨listCache [(3, ⟨1, 2, DDSData.data ⟨1, [5]⟩⟩),
                     (7, ⟨1, 3, DDSData.data ⟨1, [6]⟩⟩)], 30⟩]),
      (ReadState.new Nat).latest_instant < d.receive_instant :=
  c4_best_effort_monotone exKeyOps exAdapter exReaderBE
    [⟨listCache [(5, ⟨1, 1, DDSData.data ⟨1, [4]⟩⟩)], 20⟩,
     ⟨listCache [(3, ⟨1, 2, DDSData.data ⟨1, [5]⟩⟩),
                 (7, ⟨1, 3, DDSData.data ⟨1, [6]⟩⟩)], 30⟩]
    (ReadState.new Nat) rfl
    (by
      intro e he lo hi x hx
      rcases List.mem_cons.mp he with h | h
      · subst h; exact (listCache_best_effort_mem hx).2
      · rcases List.mem_cons.mp h with h2 | h2
        · subst h2; exact (listCache_best_effort_mem hx).2
        · cases h2)

/-- C5 witness: two reliable deliveries from one writer have increasing
sequence numbers. -/
theorem c5_reliable_monotone_witness :
    List.Pairwise (fun a b => a.writer_guid = b.writer_guid →
        a.sequence_number < b.sequence_number)
      (deliveries (run exKeyOps exAdapter exReaderRel (ReadState.new Nat)
        [⟨listCache [(10, ⟨1, 1, DDSData.data ⟨1, [4]⟩⟩)], 20⟩,
         ⟨listCache [(10, ⟨1, 1, DDSData.data ⟨1, [4]⟩⟩),
                     (11, ⟨1, 2, DDSData.data ⟨1, [5]⟩⟩)], 30⟩])) ∧
    ∀ d ∈ deliveries (run exKeyOps exAdapter exReaderRel (ReadState.new Nat)
        [⟨listCache [(10, ⟨1, 1, DDSData.data ⟨1, [4]⟩⟩)], 20⟩,
         ⟨listCache [(10, ⟨1, 1, DDSData.data ⟨1, [4]⟩⟩),
                     (11, ⟨1, 2, DDSData.data ⟨1, [5]⟩⟩)], 30⟩]),
      ∀ s, mapLookup (ReadState.new Nat).last_read_sn d.writer_guid = some s →
        s < d.sequence_number :=
  c5_reliable_monotone exKeyOps exAdapter exReaderRel
    [⟨listCache [(10, ⟨1, 1, DDSData.data ⟨1, [4]⟩⟩)], 20⟩,
     ⟨listCache [(10, ⟨1, 1, DDSData.data ⟨1, [4]⟩⟩),
                 (11, ⟨1, 2, DDSData.data ⟨1, [5]⟩⟩)], 30⟩]
    (ReadState.new Nat) rfl
    (by
      intro e he lrs x hx
      rcases List.mem_cons.mp he with h | h
      · subst h; exact fun s hs => (listCache_reliable_gt hx).2 s hs
      · rcases List.mem_cons.mp h with h2 | h2
        · subst h2; exact fun s hs => (listCache_reliable_gt hx).2 s hs
        · cases h2)

/-- C6 witness: an empty range yields `Ok(None)` and no state change. -/
theorem c6_single_change_take_witness :
    try_take_one exKeyOps exAdapter exReaderRel (listCache []) 20
      (ReadState.new Nat) = (.ok none, ReadState.new Nat) :=
  (c6_single_change_take exKeyOps exAdapter exReaderRel (listCache [])
      (listCache []) 20 20 (ReadState.new Nat)).1 rfl

/-- C7 witness: representation id 9 is unsupported by the adapter. -/
theorem c7_unknown_encoding_witness :
    try_take_one exKeyOps exAdapter exReaderRel
        (listCache [(10, ⟨1, 1, DDSData.data ⟨9, [3]⟩⟩)]) 20
        (ReadState.new Nat) =
      (.error (DDSError.serialization_error
        "Unknown representation id 9. Topic = square, Type = Nat"),
       ReadState.new Nat) :=
  ((c7_unknown_encoding exKeyOps exAdapter exAdapter exReaderRel
      (listCache [(10, ⟨1, 1, DDSData.data ⟨9, [3]⟩⟩)]) 20
      (ReadState.new Nat) rfl rfl).1 (by decide)).1

/-- C8 witness: on a dispose-by-key change the seeded and plain takes agree. -/
theorem c8_seed_off_value_path_witness :
    try_take_one_seed exKeyOps exSeedAdapter exReaderRel
        (listCache [(10, ⟨1, 1, DDSData.disposeByKey ⟨1, [7]⟩⟩)]) 20 3
        (ReadState.new Nat) =
      try_take_one exKeyOps exAdapter exReaderRel
        (listCache [(10, ⟨1, 1, DDSData.disposeByKey ⟨1, [7]⟩⟩)]) 20
        (ReadState.new Nat) :=
  c8_seed_off_value_path exKeyOps exAdapter exSeedAdapter 3 exReaderRel
    (listCache [(10, ⟨1, 1, DDSData.disposeByKey ⟨1, [7]⟩⟩)]) 20
    (ReadState.new Nat) rfl (fun sp h => DDSData.noConfusion h) rfl rfl

/-- C9 witness: with an empty cache both takes are empty and the poll is
Pending. -/
theorem c9_stream_poll_protocol_witness :
    (poll_next exKeyOps exAdapter exReaderRel (listCache [], 20)
        (listCache [], 21) 7 ⟨ReadState.new Nat, none⟩).1 = .pending :=
  ((c9_stream_poll_protocol exKeyOps exAdapter exReaderRel (listCache [], 20)
      (listCache [], 21) 7 ⟨ReadState.new Nat, none⟩).2.1).mpr ⟨rfl, rfl⟩

/-- C10 witness: a dispose consumed by the no-key reader yields `Ok(None)`
with advanced pointers. -/
theorem c10_no_key_none_ambiguity_witness :
    (noKey_try_take_one exAdapterU exReaderRel
        (listCache [(10, ⟨1, 1, DDSData.disposeByKey ⟨1, [7]⟩⟩)]) 20
        (ReadState.new Unit)).1 = .ok none ∧
    (noKey_try_take_one exAdapterU exReaderRel
        (listCache [(10, ⟨1, 1, DDSData.disposeByKey ⟨1, [7]⟩⟩)]) 20
        (ReadState.new Unit)).2 =
      (try_take_one (noKeyOps Nat) exAdapterU exReaderRel
        (listCache [(10, ⟨1, 1, DDSData.disposeByKey ⟨1, [7]⟩⟩)]) 20
        (ReadState.new Unit)).2 ∧
    mapLookup (noKey_try_take_one exAdapterU exReaderRel
        (listCache [(10, ⟨1, 1, DDSData.disposeByKey ⟨1, [7]⟩⟩)]) 20
        (ReadState.new Unit)).2.last_read_sn 1 = some 1 ∧
    (try_take_undecoded exReaderRel.qos_policy.is_reliable
      (listCache [(10, ⟨1, 1, DDSData.disposeByKey ⟨1, [7]⟩⟩)])
      (ReadState.new Unit).latest_instant (ReadState.new Unit).last_read_sn
      20).head? ≠ none :=
  c10_no_key_none_ambiguity exAdapterU exReaderRel
    (listCache [(10, ⟨1, 1, DDSData.disposeByKey ⟨1, [7]⟩⟩)]) 20
    (ReadState.new Unit) rfl rfl

end DDS
